import Mathlib

set_option maxRecDepth 8000

namespace RxnWeaver

/-- Bond types, mirroring the `BondType` enum of `common/enums.go`:
`BondTypeNone, BondTypeSingle, BondTypeDouble, BondTypeTriple, BondTypeAltern`
with underlying values 0..4. -/
inductive BondType where
  | none
  | single
  | double
  | triple
  | altern
deriving DecidableEq, Inhabited

/-- The numeric value of a bond type (`int(bType)` in the Go source). -/
def BondType.toNat : BondType → Nat
  | .none => 0
  | .single => 1
  | .double => 2
  | .triple => 3
  | .altern => 4

/-- Modelled from the spec: the composite unsaturation states of an atom
(the `cmn.Unsaturation` enum; its declaration is not among the provided
sources, only its constant names are used by `data/molecule/atom.go`).
The spec lists exactly these states: none, charged, double-to-C,
double-to-W, double-C-C, double-C-W, double-W-W, triple-C, triple-W. -/
inductive Unsaturation where
  | none
  | charged
  | doubleBondC
  | doubleBondW
  | doubleBondCC
  | doubleBondCW
  | doubleBondWW
  | tripleBondC
  | tripleBondW
deriving DecidableEq, Inhabited

/-- An atom (`_Atom` of `data/molecule/atom.go`), restricted to the fields
that are read or written by the operations embedded in this file.  `bonds`
models the per-atom bond-id bitset (set semantics), `nbrs` the expanded
neighbour list.  The three bond counts model `uint8` fields; where the
source increments or decrements them, the embedding computes modulo 256. -/
structure Atom where
  atNum : Nat
  iId : Nat
  nId : Nat
  hCount : Nat
  charge : Int
  bonds : List Nat
  nbrs : List Nat
  singleBondCount : Nat
  doubleBondCount : Nat
  tripleBondCount : Nat
  rings : List Nat
  isInAroRing : Bool
  unsaturation : Unsaturation
deriving DecidableEq, Inhabited

/-- A bond (`_Bond` of `data/molecule/bond.go`), restricted to the fields
used by the embedded operations. -/
structure Bond where
  id : Nat
  a1 : Nat
  a2 : Nat
  bType : BondType
  isAro : Bool
  rings : List Nat
deriving DecidableEq, Inhabited

/-- A ring (`_Ring` of `data/molecule/ring.go`).  The two bitsets are
modelled as lists with set semantics. -/
structure Ring where
  id : Nat
  atoms : List Nat
  bonds : List Nat
  atomBitSet : List Nat
  bondBitSet : List Nat
  isAro : Bool
  isHetAro : Bool
  isComplete : Bool
deriving DecidableEq, Inhabited

/-- A ring system (`_RingSystem` of `data/molecule/ring_system.go`). -/
structure RingSystem where
  id : Nat
  rings : List Nat
  atomBitSet : List Nat
  bondBitSet : List Nat
  isAro : Bool
deriving DecidableEq, Inhabited

/-- A molecule (`Molecule` of `data/molecule/molecule.go`), restricted to
its atom, bond, ring and ring-system lists. -/
structure Molecule where
  atoms : List Atom
  bonds : List Bond
  rings : List Ring
  ringSystems : List RingSystem
deriving DecidableEq, Inhabited

/-- `Molecule.atomWithIid`: the atom with the given input ID, if found
(first match, as the Go loop returns the first atom with that `iId`). -/
def Molecule.atomWithIid (m : Molecule) (id : Nat) : Option Atom :=
  m.atoms.find? (fun a => a.iId == id)

/-- Total version of `atomWithIid`; the default stands in for the `nil`
dereference the Go code would perform on a missing atom. -/
def Molecule.atomWithIidD (m : Molecule) (id : Nat) : Atom :=
  (m.atomWithIid id).getD default

/-- `Molecule.bondWithId`: the bond with the given ID, if found. -/
def Molecule.bondWithId (m : Molecule) (id : Nat) : Option Bond :=
  m.bonds.find? (fun b => b.id == id)

/-- Total version of `bondWithId`. -/
def Molecule.bondWithIdD (m : Molecule) (id : Nat) : Bond :=
  (m.bondWithId id).getD default

/-- `Molecule.ringWithId`: the ring with the given ID, if found. -/
def Molecule.ringWithId (m : Molecule) (id : Nat) : Option Ring :=
  m.rings.find? (fun r => r.id == id)

/-- Total version of `ringWithId`. -/
def Molecule.ringWithIdD (m : Molecule) (id : Nat) : Ring :=
  (m.ringWithId id).getD default

/-- `ringSystemWithId`: the ring system with the given ID, if found. -/
def Molecule.ringSystemWithId (m : Molecule) (id : Nat) : Option RingSystem :=
  m.ringSystems.find? (fun rs => rs.id == id)

/-- Total version of `ringSystemWithId`. -/
def Molecule.ringSystemWithIdD (m : Molecule) (id : Nat) : RingSystem :=
  (m.ringSystemWithId id).getD default

/-- `Molecule.bondBetween` of `data/molecule/molecule.go`: the first bond
joining the two given atom input IDs, in either orientation. -/
def Molecule.bondBetween (m : Molecule) (a1id a2id : Nat) : Option Bond :=
  m.bonds.find? (fun b => (b.a1 == a1id && b.a2 == a2id) || (b.a2 == a1id && b.a1 == a2id))

/-- `Bond.otherAtomIid` of `data/molecule/bond.go`: the other endpoint of
the bond, or the sentinel `0` when the given atom is not an endpoint. -/
def Bond.otherAtomIid (b : Bond) (aid : Nat) : Nat :=
  if b.a1 = aid then b.a2
  else if b.a2 = aid then b.a1
  else 0

/-- `Bond.isCyclic`: the bond participates in at least one ring
(`len(b.rings) > 0`). -/
def Bond.isCyclic (b : Bond) : Bool :=
  b.rings.length > 0

/-- `Atom.isCyclic`: the atom participates in at least one ring
(`a.rings.Count() > 0`). -/
def Atom.isCyclic (a : Atom) : Bool :=
  a.rings.length > 0

/-- The weighted sum of `Atom.piElectronCount`
(`100*int16(doubleBondCount) + 10*int16(singleBondCount) + int16(charge)`);
exact in `Int` since the `uint8` counts and `int8` charge cannot overflow
`int16` in this expression. -/
def Atom.wtSum (a : Atom) : Int :=
  100 * (a.doubleBondCount : Int) + 10 * (a.singleBondCount : Int) + a.charge

/-- The scan of the `wtSum == 120` carbon case of `Atom.piElectronCount`:
the Go loop keeps the last examined bond in `b` and breaks at the first
double bond, so the scan yields the first double-typed bond if one exists,
and otherwise the last bond of the list (`Option.none` on an empty list,
where the Go code would dereference `nil`). -/
def scanDoubleBond (m : Molecule) : List Nat → Option Bond
  | [] => Option.none
  | [bid] => some (m.bondWithIdD bid)
  | bid :: rest =>
    let b := m.bondWithIdD bid
    if b.bType = BondType.double then some b else scanDoubleBond m rest

/-- `Atom.firstDoublyBondedNeighbourId` of `data/molecule/atom.go`:
`(0, nil)` when `doubleBondCount == 0` (modelled as `Option.none`),
otherwise the other endpoint of the first double-typed bond.  The
`Option.none` result of the final `find?` corresponds to the Go
`panic("Should never be here!")`. -/
def Atom.firstDoublyBondedNeighbour (a : Atom) (m : Molecule) : Option (Nat × Bond) :=
  if a.doubleBondCount = 0 then Option.none
  else
    match (a.bonds.map m.bondWithIdD).find? (fun b => b.bType == BondType.double) with
    | some b => some (b.otherAtomIid a.iId, b)
    | Option.none => Option.none

/-- `Atom.piElectronCount` of `data/molecule/atom.go`: the number of
delocalised pi electrons contributed by the atom, plus the
aromaticity-compatibility boolean (`false` poisons any containing ring). -/
def Atom.piElectronCount (a : Atom) (m : Molecule) : Int × Bool :=
  let wtSum := a.wtSum
  if a.atNum = 6 then
    if wtSum = 19 then (2, true)
    else if wtSum = 20 then (0, true)
    else if wtSum = 110 then (1, true)
    else if wtSum = 120 then
      match scanDoubleBond m a.bonds with
      | some b => if b.isCyclic then (1, true) else (0, true)
      | Option.none => (0, true)
    else (0, true)
  else if a.atNum = 7 then
    if wtSum = 20 ∨ wtSum = 30 then (2, true)
    else if wtSum = 110 ∨ wtSum = 121 then (1, true)
    else (0, true)
  else if a.atNum = 8 then
    if wtSum = 20 then (2, true)
    else if wtSum = 111 then (1, true)
    else (0, true)
  else if a.atNum = 16 then
    if wtSum = 20 then (2, true)
    else if wtSum = 111 then (1, true)
    else if wtSum = 120 then
      match a.firstDoublyBondedNeighbour m with
      | some p =>
        let oa := m.atomWithIidD p.1
        if oa.atNum = 8 ∧ ¬ p.2.isCyclic then (2, true) else (0, true)
      | Option.none => (0, true)
    else if wtSum = 220 then
      let c := (a.bonds.map m.bondWithIdD).countP (fun b => b.bType == BondType.double && !b.isCyclic)
      if c > 1 then (0, false) else (0, true)
    else (0, true)
  else (0, true)

/-- The accumulating pi-electron sum shared by `Ring.piElectronCount` and
`RingSystem.piElectronCount`: add up the contributions of the listed atoms,
returning `(0, false)` as soon as one atom is not aromaticity-compatible. -/
def sumPi (m : Molecule) : List Nat → Int → Int × Bool
  | [], n => (n, true)
  | aiid :: rest, n =>
    let a := m.atomWithIidD aiid
    let p := a.piElectronCount m
    if p.2 then sumPi m rest (n + p.1) else (0, false)

/-- `Ring.piElectronCount` of `data/molecule/ring.go`. -/
def Ring.piElectronCount (r : Ring) (m : Molecule) : Int × Bool :=
  sumPi m r.atoms 0

/-- `RingSystem.piElectronCount` of `data/molecule/ring_system.go` (the
iteration over the system's atom bitset). -/
def RingSystem.piElectronCount (rs : RingSystem) (m : Molecule) : Int × Bool :=
  sumPi m rs.atomBitSet 0

/-- In-place mutation through a molecule-indexed lookup: the Go code
mutates the record returned by `atomWithIid`/`bondWithId`/`ringWithId`,
i.e. the first record of the list with the given key. -/
def updateFirst (key : α → Nat) (id : Nat) (f : α → α) : List α → List α
  | [] => []
  | a :: rest => if key a = id then f a :: rest else a :: updateFirst key id f rest

/-- The sp3-carbon test of the aromaticity determiners: a carbon atom with
unsaturation `None`. -/
def sp3Carbon (m : Molecule) (aiid : Nat) : Bool :=
  let a := m.atomWithIidD aiid
  a.atNum == 6 && a.unsaturation == Unsaturation.none

/-- Setting `isInAroRing` on the atoms named by the list (the atom-marking
loops of both aromaticity determiners). -/
def markAtomsAro (m : Molecule) (ids : List Nat) : Molecule :=
  ids.foldl (fun mm aiid =>
    { mm with atoms := updateFirst Atom.iId aiid (fun a => { a with isInAroRing := true }) mm.atoms }) m

/-- Setting `isAro` on the bonds named by the list (the bond-marking loops
of both aromaticity determiners). -/
def markBondsAro (m : Molecule) (ids : List Nat) : Molecule :=
  ids.foldl (fun mm bid =>
    { mm with bonds := updateFirst Bond.id bid (fun b => { b with isAro := true }) mm.bonds }) m

/-- `Ring.determineAromaticity` of `data/molecule/ring.go`, as a state
transformer on the molecule containing the ring with the given ID: apply
the compatibility, Hueckel (`(n-2)%4 != 0`, Go truncated remainder) and
sp3-carbon gates, and on success mark the ring, its atoms and its bonds.
`isHetAro` is set when some member atom is not a carbon, as in the source's
marking loop. -/
def ringDetermineAromaticity (m : Molecule) (rid : Nat) : Molecule :=
  let r := m.ringWithIdD rid
  let p := r.piElectronCount m
  if !p.2 then m
  else if (p.1 - 2).tmod 4 ≠ 0 then m
  else if r.atoms.any (sp3Carbon m) then m
  else
    let hetero := r.atoms.any (fun aiid => (m.atomWithIidD aiid).atNum ≠ 6)
    let f := fun (rr : Ring) =>
      { rr with isAro := true, isHetAro := if hetero then true else rr.isHetAro }
    let m1 := { m with rings := updateFirst Ring.id rid f m.rings }
    markBondsAro (markAtomsAro m1 r.atoms) r.bonds

/-- The failure condition of `RingSystem.determineAromaticity`
(`ring_system.go`): accumulate `err` over the compatibility check, the
Hueckel check and the sp3-carbon scan. -/
def ringSystemErr (m : Molecule) (rs : RingSystem) : Bool :=
  let p := rs.piElectronCount m
  !p.2 || ((p.1 - 2).tmod 4 != 0) || rs.atomBitSet.any (sp3Carbon m)

/-- `RingSystem.determineAromaticity` of `data/molecule/ring_system.go`,
as a state transformer on the containing molecule: on success set `isAro`
on the system and mark all member atoms and bonds
(`markAtomsBondsAromatic`); on failure run the per-ring determination on
each constituent ring. -/
def rsDetermineAromaticity (m : Molecule) (rsid : Nat) : Molecule :=
  let rs := m.ringSystemWithIdD rsid
  if ringSystemErr m rs then rs.rings.foldl ringDetermineAromaticity m
  else
    let f := fun (s : RingSystem) => { s with isAro := true }
    let m1 := { m with ringSystems := updateFirst RingSystem.id rsid f m.ringSystems }
    markBondsAro (markAtomsAro m1 rs.atomBitSet) rs.bondBitSet

/-- Two's-complement truncation to `int8`, for the casts in
`determineUnsaturation` (`int8(nn) + int8(a.hCount)`). -/
def wrap8 (x : Int) : Int :=
  (x + 128) % 256 - 128

/-- `Atom.determineUnsaturation` of `data/molecule/atom.go`.  The oxidation
-state validity check `cmn.IsValidOxidationState` is not among the provided
sources; it is abstracted as the parameter `validOS` (the spec describes it
as the element table's permitted-oxidation-state test).  `Option.none`
models the error return; on success the atom is returned with its
`unsaturation` field updated exactly as the source sets it. -/
def determineUnsaturation (validOS : Nat → Int → Bool) (m : Molecule) (a : Atom) : Option Atom :=
  let nb := a.bonds.length
  let nn := a.nbrs.length
  if a.charge ≠ 0 then some { a with unsaturation := Unsaturation.charged }
  else if 0 < a.hCount ∧ validOS a.atNum (wrap8 (wrap8 nn + wrap8 a.hCount)) = false then
    Option.none
  else if nb = nn then some { a with unsaturation := Unsaturation.none }
  else
    let resolved := a.bonds.map m.bondWithIdD
    let hetero := fun (b : Bond) => (m.atomWithIidD (b.otherAtomIid a.iId)).atNum ≠ 6
    let ndb := resolved.countP (fun b => b.bType == BondType.double)
    let nhdb := resolved.countP (fun b => b.bType == BondType.double && hetero b)
    let ntb := resolved.countP (fun b => b.bType == BondType.triple)
    let nhtb := resolved.countP (fun b => b.bType == BondType.triple && hetero b)
    if 0 < ntb then
      some { a with unsaturation :=
        if 0 < nhtb then Unsaturation.tripleBondW else Unsaturation.tripleBondC }
    else if 0 < ndb then
      some { a with unsaturation :=
        if ndb = 1 ∧ nhdb = 0 then Unsaturation.doubleBondC
        else if ndb = 1 ∧ nhdb = 1 then Unsaturation.doubleBondW
        else if ndb = 2 ∧ nhdb = 0 then Unsaturation.doubleBondCC
        else if ndb = 2 ∧ nhdb = 1 then Unsaturation.doubleBondCW
        else if ndb = 2 ∧ nhdb = 2 then Unsaturation.doubleBondWW
        else a.unsaturation }
    else some a

/-- `Ring.hasAtom` of `data/molecule/ring.go`: membership in the ring's
atom bitset. -/
def Ring.hasAtom (r : Ring) (aid : Nat) : Bool :=
  r.atomBitSet.contains aid

/-- `Ring.addAtom` of `data/molecule/ring.go`.  Note that, exactly as in
the source, the `size == 0` branch appends the first atom without adding
it to `atomBitSet`. -/
def Ring.addAtom (r : Ring) (m : Molecule) (aid : Nat) : Option Ring :=
  if r.isComplete then Option.none
  else if r.hasAtom aid then some r
  else
    match r.atoms.getLast? with
    | Option.none => some { r with atoms := [aid] }
    | some prev =>
      match m.bondBetween prev aid with
      | Option.none => Option.none
      | some b => some { r with
          bonds := r.bonds ++ [b.id],
          atoms := r.atoms ++ [aid],
          bondBitSet := r.bondBitSet.insert b.id,
          atomBitSet := r.atomBitSet.insert aid }

/-- `Ring.complete` of `data/molecule/ring.go`: close the ring between its
last and first atoms and freeze it.  The unreachable `Option.none` in the
head/last match cannot occur for `size >= 3`. -/
def Ring.complete (r : Ring) (m : Molecule) : Option Ring :=
  if r.isComplete then some r
  else if r.atoms.length < 3 then Option.none
  else
    match r.atoms.head?, r.atoms.getLast? with
    | some aid1, some aid2 =>
      match m.bondBetween aid1 aid2 with
      | Option.none => Option.none
      | some b => some { r with bonds := r.bonds ++ [b.id], isComplete := true }
    | _, _ => Option.none

/-- The minimum-search loop of `Ring.normalise`: state `(idx, min)` starts
at `(-1, MaxUint16)`, and a strict improvement records the index. -/
def minIdxAux : List Nat → Nat → Int → Nat → Int × Nat
  | [], _, idx, mn => (idx, mn)
  | nid :: rest, i, idx, mn =>
    if nid < mn then minIdxAux rest (i + 1) (i : Int) nid
    else minIdxAux rest (i + 1) idx mn

/-- `Ring.normalise` of `data/molecule/ring.go`: find the index of the
atom with the lowest normalised ID and rotate the atom list so that it
comes first.  `Option.none` models the error on an empty ring; the
`idx < 0` branch (every normalised ID equal to `MaxUint16`) corresponds to
an out-of-bounds slice in the source. -/
def Ring.normalise (r : Ring) (m : Molecule) : Option Ring :=
  if r.atoms.length = 0 then Option.none
  else
    let nids := r.atoms.map (fun aiid => (m.atomWithIidD aiid).nId)
    let idx := (minIdxAux nids 0 (-1) 65535).1
    if idx < 0 then Option.none
    else some { r with atoms := r.atoms.drop idx.toNat ++ r.atoms.take idx.toNat }

/-- `Atom.addBond` of `data/molecule/atom.go`: record the bond id, extend
the expanded neighbour list by one copy of the other endpoint per bond
order, and bump the per-order counter (`uint8`, hence modulo 256).
Idempotent on the bond id, as in the source's initial scan. -/
def Atom.addBond (a : Atom) (b : Bond) : Atom :=
  if b.id ∈ a.bonds then a
  else
    let nbrId := b.otherAtomIid a.iId
    let n := b.bType.toNat
    { a with
      bonds := a.bonds.insert b.id,
      nbrs := a.nbrs ++ List.replicate n nbrId,
      singleBondCount := if n = 1 then (a.singleBondCount + 1) % 256 else a.singleBondCount,
      doubleBondCount := if n = 2 then (a.doubleBondCount + 1) % 256 else a.doubleBondCount,
      tripleBondCount := if n = 3 then (a.tripleBondCount + 1) % 256 else a.tripleBondCount }

/-- `Atom.removeBond` of `data/molecule/atom.go`: decrement the counter of
the bond's order (`uint8` decrement, hence `+255` modulo 256), drop every
occurrence of the other endpoint from the expanded neighbour list, and
clear the bond id. -/
def Atom.removeBond (a : Atom) (b : Bond) : Atom :=
  let nbrId := b.otherAtomIid a.iId
  { a with
    singleBondCount := if b.bType = BondType.single then (a.singleBondCount + 255) % 256 else a.singleBondCount,
    doubleBondCount := if b.bType = BondType.double then (a.doubleBondCount + 255) % 256 else a.doubleBondCount,
    tripleBondCount := if b.bType = BondType.triple then (a.tripleBondCount + 255) % 256 else a.tripleBondCount,
    nbrs := a.nbrs.filter (fun nid => nid ≠ nbrId),
    bonds := a.bonds.erase b.id }

/-- A single `addBond`/`removeBond` call on an atom. -/
inductive BondOp where
  | add (b : Bond)
  | remove (b : Bond)
deriving DecidableEq

/-- Apply one bond operation to an atom. -/
def applyBondOp (a : Atom) : BondOp → Atom
  | .add b => a.addBond b
  | .remove b => a.removeBond b

/-- Apply a sequence of bond operations to an atom. -/
def applyBondOps (a : Atom) (ops : List BondOp) : Atom :=
  ops.foldl applyBondOp a

/-- The ghost set of bonds currently incident to the atom, tracked
alongside a sequence of bond operations. -/
def ghostStep (cur : List Bond) : BondOp → List Bond
  | .add b => if b.id ∈ cur.map Bond.id then cur else b :: cur
  | .remove b => cur.erase b

/-- Validity of one bond operation against the current incident-bond set:
an added bond has a real order (single, double or triple, the only orders a
molecule's bonds can carry), keeps the incident set below the `uint8`
range, and respects "at most one bond joins any pair of atoms" (a bond
with a fresh id reaches a fresh neighbour); a removed bond is currently
incident. -/
def validBondOp (aiid : Nat) (cur : List Bond) : BondOp → Prop
  | .add b =>
    (b.bType = BondType.single ∨ b.bType = BondType.double ∨ b.bType = BondType.triple) ∧
    cur.length < 255 ∧
    (∀ c ∈ cur, c.id ≠ b.id → c.otherAtomIid aiid ≠ b.otherAtomIid aiid)
  | .remove b => b ∈ cur

/-- Validity of a whole operation sequence, threading the ghost set. -/
def validBondOps (aiid : Nat) : List Bond → List BondOp → Prop
  | _, [] => True
  | cur, op :: rest => validBondOp aiid cur op ∧ validBondOps aiid (ghostStep cur op) rest

/-- The freshly constructed state of an atom (`newAtom` of
`data/molecule/atom.go`): empty bond set, empty neighbour list, zero
counters. -/
def newAtomState (atNum iId : Nat) : Atom :=
  { atNum := atNum, iId := iId, nId := 0, hCount := 0, charge := 0,
    bonds := [], nbrs := [],
    singleBondCount := 0, doubleBondCount := 0, tripleBondCount := 0,
    rings := [], isInAroRing := false, unsaturation := Unsaturation.none }

/-- Outcome of a `BondBuilder.Atoms` call (`part_002`): success, an
unknown-endpoint error, or the non-fatal hydrogen-bond condition under
which the bond is dropped. -/
inductive BBStatus where
  | ok
  | unknownAtom
  | hydrogenBond
deriving DecidableEq

/-- Increment an atom's `hCount` (a `uint8`, hence modulo 256) through the
molecule-indexed lookup. -/
def incHCount (m : Molecule) (aiid : Nat) : Molecule :=
  { m with atoms := updateFirst Atom.iId aiid (fun a => { a with hCount := (a.hCount + 1) % 256 }) m.atoms }

/-- `BondBuilder.Atoms` of `part_002`: look up both endpoints; error when
either is unknown; when an endpoint is a hydrogen, drop the bond under
construction (`bb.b = nil`), increment the other endpoint's `hCount` and
signal the non-fatal condition; otherwise record the endpoints on the bond
under construction. -/
def bondBuilderAtoms (m : Molecule) (b : Bond) (aiid1 aiid2 : Nat) :
    Molecule × Option Bond × BBStatus :=
  match m.atomWithIid aiid1, m.atomWithIid aiid2 with
  | Option.none, _ => (m, some b, BBStatus.unknownAtom)
  | some _, Option.none => (m, some b, BBStatus.unknownAtom)
  | some a1, some a2 =>
    if a1.atNum = 1 then (incHCount m aiid2, Option.none, BBStatus.hydrogenBond)
    else if a2.atNum = 1 then (incHCount m aiid1, Option.none, BBStatus.hydrogenBond)
    else (m, some { b with a1 := aiid1, a2 := aiid2 }, BBStatus.ok)

/-- `BondBuilder.BondType` of `part_002`: reject the orders `none` and
`alternating`; record any other order on the bond under construction. -/
def bondBuilderBondType (b : Bond) (bt : BondType) : Option Bond :=
  if bt = BondType.none ∨ bt = BondType.altern then Option.none
  else some { b with bType := bt }

/-- The first double-typed bond among the atom's bonds: "the relevant
double bond" of the spec's pi-electron table. -/
def relevantDoubleBond (m : Molecule) (a : Atom) : Option Bond :=
  (a.bonds.map m.bondWithIdD).find? (fun b => b.bType == BondType.double)

/-- The pi-electron table exactly as claim C3 states it.  In particular,
for sulfur at key 120 the condition is "the doubly-bonded partner is an
oxygen that is non-cyclic", i.e. the cyclicity of the oxygen atom.  The
`Option.none` fallbacks (no double bond present at a key that presupposes
one) are unreachable under the claim's presuppositions. -/
def piElectronCountSpec (a : Atom) (m : Molecule) : Int × Bool :=
  let key := a.wtSum
  if a.atNum = 6 then
    if key = 19 then (2, true)
    else if key = 110 then (1, true)
    else if key = 120 then
      match relevantDoubleBond m a with
      | some b => if b.isCyclic then (1, true) else (0, true)
      | Option.none => (0, true)
    else (0, true)
  else if a.atNum = 7 then
    if key = 20 ∨ key = 30 then (2, true)
    else if key = 110 ∨ key = 121 then (1, true)
    else (0, true)
  else if a.atNum = 8 then
    if key = 20 then (2, true)
    else if key = 111 then (1, true)
    else (0, true)
  else if a.atNum = 16 then
    if key = 20 then (2, true)
    else if key = 111 then (1, true)
    else if key = 120 then
      match relevantDoubleBond m a with
      | some b =>
        let oa := m.atomWithIidD (b.otherAtomIid a.iId)
        if oa.atNum = 8 ∧ ¬ oa.isCyclic then (2, true) else (0, true)
      | Option.none => (0, true)
    else if key = 220 then
      let c := (a.bonds.map m.bondWithIdD).countP (fun b => b.bType == BondType.double && !b.isCyclic)
      if c > 1 then (0, false) else (0, true)
    else (0, true)
  else (0, true)

/-- The pi-electron table of claim C3, amended only in the sulfur key-120
case: the code requires the partner to be an oxygen and the double *bond*
to be non-cyclic (exocyclic), rather than the oxygen atom. -/
def piElectronCountSpecAmended (a : Atom) (m : Molecule) : Int × Bool :=
  let key := a.wtSum
  if a.atNum = 6 then
    if key = 19 then (2, true)
    else if key = 110 then (1, true)
    else if key = 120 then
      match relevantDoubleBond m a with
      | some b => if b.isCyclic then (1, true) else (0, true)
      | Option.none => (0, true)
    else (0, true)
  else if a.atNum = 7 then
    if key = 20 ∨ key = 30 then (2, true)
    else if key = 110 ∨ key = 121 then (1, true)
    else (0, true)
  else if a.atNum = 8 then
    if key = 20 then (2, true)
    else if key = 111 then (1, true)
    else (0, true)
  else if a.atNum = 16 then
    if key = 20 then (2, true)
    else if key = 111 then (1, true)
    else if key = 120 then
      match relevantDoubleBond m a with
      | some b =>
        let oa := m.atomWithIidD (b.otherAtomIid a.iId)
        if oa.atNum = 8 ∧ ¬ b.isCyclic then (2, true) else (0, true)
      | Option.none => (0, true)
    else if key = 220 then
      let c := (a.bonds.map m.bondWithIdD).countP (fun b => b.bType == BondType.double && !b.isCyclic)
      if c > 1 then (0, false) else (0, true)
    else (0, true)
  else (0, true)

/-- Rotate an atom-id list so that the entry with the lowest normalised ID
comes first, using the same first-strict-minimum search as the source. -/
def rotateToMinNid (m : Molecule) (l : List Nat) : List Nat :=
  let nids := l.map (fun aiid => (m.atomWithIidD aiid).nId)
  let idx := (minIdxAux nids 0 (-1) 65535).1
  l.drop idx.toNat ++ l.take idx.toNat

/-- Ring canonicalisation exactly as claim C5 states it: rotate the ring
so the minimum-normalised-id atom is first, and fix the orientation by
choosing the rotation direction (forward, or the reversed traversal of the
cycle) in which the next (second) atom has the smaller normalised id. -/
def normaliseSpec (r : Ring) (m : Molecule) : Option (List Nat) :=
  if r.atoms.length = 0 then Option.none
  else
    let fwd := rotateToMinNid m r.atoms
    let bwd := rotateToMinNid m r.atoms.reverse
    let nid2 : List Nat → Nat := fun l =>
      match l.get? 1 with
      | some aiid => (m.atomWithIidD aiid).nId
      | Option.none => 65535
    some (if nid2 bwd < nid2 fwd then bwd else fwd)

/-- The `hCount` of the atom with the given input id. -/
def hCountOf (m : Molecule) (x : Nat) : Nat :=
  (m.atomWithIidD x).hCount

/-- A heavy endpoint of the call `atoms(a1, a2)`: one of the two endpoint
ids whose atom is not a hydrogen. -/
def heavyEndpoint (m : Molecule) (a1 a2 x : Nat) : Prop :=
  (x = a1 ∨ x = a2) ∧ (m.atomWithIidD x).atNum ≠ 1

/-- Claim C8 as stated, at one call `bondBuilderAtoms m b a1 a2` whose
endpoints both exist and at least one of which is a hydrogen: the bond
under construction is discarded, the non-fatal hydrogen-bond condition is
signalled, the heavy endpoint's `hCount` grows by exactly one, and the
`hCount` of every atom other than a heavy endpoint is unchanged. -/
def claimC8At (m : Molecule) (b : Bond) (a1 a2 : Nat) : Prop :=
  let res := bondBuilderAtoms m b a1 a2
  res.2.1 = Option.none ∧ res.2.2 = BBStatus.hydrogenBond ∧
  (∀ x, heavyEndpoint m a1 a2 x → hCountOf res.1 x = hCountOf m x + 1) ∧
  (∀ x, ¬ heavyEndpoint m a1 a2 x → hCountOf res.1 x = hCountOf m x)

/-- A concrete ring and molecule for claim C5: three atoms whose input ids
are 1, 2, 3 and whose normalised ids are 1, 3, 2 respectively. -/
def exMolC5 : Molecule :=
  { atoms := [
      { (default : Atom) with atNum := 6, iId := 1, nId := 1 },
      { (default : Atom) with atNum := 6, iId := 2, nId := 3 },
      { (default : Atom) with atNum := 6, iId := 3, nId := 2 }],
    bonds := [], rings := [], ringSystems := [] }

/-- The ring `[1, 2, 3]` over `exMolC5`. -/
def exRingC5 : Ring :=
  { (default : Ring) with id := 1, atoms := [1, 2, 3], isComplete := true }

/-- A concrete molecule for claim C3: a sulfur atom (input id 1) with one
double bond and two single bonds (key 120), doubly bonded to an oxygen
(input id 2); the double bond lies in no ring, but the oxygen atom itself
is a ring member. -/
def exMolC3 : Molecule :=
  { atoms := [
      { (default : Atom) with
          atNum := 16, iId := 1, doubleBondCount := 1, singleBondCount := 2, bonds := [1] },
      { (default : Atom) with atNum := 8, iId := 2, rings := [1] }],
    bonds := [
      { id := 1, a1 := 1, a2 := 2, bType := BondType.double, isAro := false, rings := [] }],
    rings := [], ringSystems := [] }

/-- A concrete molecule for claim C2: a ring system over fifteen nitrogen
atoms, each with two single bonds and no charge (key 20, contributing two
pi electrons), for a summed pi-electron count of 30. -/
def exMolC2 : Molecule :=
  { atoms := (List.range 15).map (fun k =>
      { (default : Atom) with
          atNum := 7, iId := k + 1, singleBondCount := 2, unsaturation := Unsaturation.doubleBondC }),
    bonds := [],
    rings := [],
    ringSystems := [
      { id := 1, rings := [], atomBitSet := (List.range 15).map (· + 1),
        bondBitSet := [], isAro := false }] }

/-- A concrete molecule for claim C6: four atoms joined by the single
bonds 1-2, 2-3, 3-1 and 1-4; no two bonds join the same pair of atoms. -/
def exMolC6 : Molecule :=
  { atoms := (List.range 4).map (fun k => { (default : Atom) with atNum := 6, iId := k + 1 }),
    bonds := [
      { id := 1, a1 := 1, a2 := 2, bType := BondType.single, isAro := false, rings := [] },
      { id := 2, a1 := 2, a2 := 3, bType := BondType.single, isAro := false, rings := [] },
      { id := 3, a1 := 3, a2 := 1, bType := BondType.single, isAro := false, rings := [] },
      { id := 4, a1 := 1, a2 := 4, bType := BondType.single, isAro := false, rings := [] }],
    rings := [], ringSystems := [] }

/-- The empty, not-yet-complete ring a fresh `newRing` produces. -/
def emptyRing : Ring :=
  { id := 1, atoms := [], bonds := [], atomBitSet := [], bondBitSet := [],
    isAro := false, isHetAro := false, isComplete := false }

/-- The ring built over `exMolC6` by the successful `addAtom` sequence
1, 2, 3, 1, 4 followed by a successful `complete`. -/
def exRingC6 : Option Ring :=
  (emptyRing.addAtom exMolC6 1).bind (fun r =>
    (r.addAtom exMolC6 2).bind (fun r =>
      (r.addAtom exMolC6 3).bind (fun r =>
        (r.addAtom exMolC6 1).bind (fun r =>
          (r.addAtom exMolC6 4).bind (fun r =>
            r.complete exMolC6)))))

/-- A concrete molecule for claim C8: two hydrogen atoms (input ids 1 and
2) with `hCount` zero. -/
def exMolC8 : Molecule :=
  { atoms := [
      { (default : Atom) with atNum := 1, iId := 1 },
      { (default : Atom) with atNum := 1, iId := 2 }],
    bonds := [], rings := [], ringSystems := [] }

/-- Benzene in Kekulé form, for the witnesses of claims C1 and C2: six
carbons (input ids 1..6), each with one single and one double ring bond
(key 110, contributing one pi electron); the six ring bonds alternate
double and single; one ring and one ring system contain them all. -/
def benzene : Molecule :=
  { atoms := (List.range 6).map (fun k =>
      { (default : Atom) with
          atNum := 6, iId := k + 1, singleBondCount := 1, doubleBondCount := 1, unsaturation := Unsaturation.doubleBondC }),
    bonds := (List.range 6).map (fun k =>
      { id := k + 1
        a1 := k + 1
        a2 := k % 6 + 2 - 6 * ((k + 1) / 6)
        bType := if k % 2 = 0 then BondType.double else BondType.single
        isAro := false
        rings := [1] }),
    rings := [
      { id := 1
        atoms := (List.range 6).map (· + 1)
        bonds := (List.range 6).map (· + 1)
        atomBitSet := (List.range 6).map (· + 1)
        bondBitSet := (List.range 6).map (· + 1)
        isAro := false
        isHetAro := false
        isComplete := true }],
    ringSystems := [
      { id := 1
        rings := [1]
        atomBitSet := (List.range 6).map (· + 1)
        bondBitSet := (List.range 6).map (· + 1)
        isAro := false }] }

/-- The single ring system of `benzene`, for use as a concrete input. -/
def benzeneSystem : RingSystem :=
  { id := 1
    rings := [1]
    atomBitSet := (List.range 6).map (· + 1)
    bondBitSet := (List.range 6).map (· + 1)
    isAro := false }

/-- The per-ring aromaticity pass condition (the three gates of
`Ring.determineAromaticity`): aromaticity-compatible pi count, Hueckel's
rule as implemented, and no sp3 carbon. -/
def ringPassB (m : Molecule) (rid : Nat) : Bool :=
  let r := m.ringWithIdD rid
  let p := r.piElectronCount m
  p.2 && ((p.1 - 2).tmod 4 == 0) && !(r.atoms.any (sp3Carbon m))

/-- The ring-system aromaticity pass condition (the three gates of
`RingSystem.determineAromaticity`). -/
def rsPassB (m : Molecule) (rs : RingSystem) : Bool :=
  let p := rs.piElectronCount m
  p.2 && ((p.1 - 2).tmod 4 == 0) && !(rs.atomBitSet.any (sp3Carbon m))

/-- The fields of an atom read by the aromaticity computations (everything
except the `isInAroRing` flag the marking passes write). -/
structure AtomCore where
  atNum : Nat
  iId : Nat
  nId : Nat
  hCount : Nat
  charge : Int
  bonds : List Nat
  nbrs : List Nat
  singleBondCount : Nat
  doubleBondCount : Nat
  tripleBondCount : Nat
  rings : List Nat
  unsaturation : Unsaturation
deriving DecidableEq, Inhabited

/-- Project an atom to its aromaticity-relevant core. -/
def Atom.core (a : Atom) : AtomCore :=
  ⟨a.atNum, a.iId, a.nId, a.hCount, a.charge, a.bonds, a.nbrs,
    a.singleBondCount, a.doubleBondCount, a.tripleBondCount, a.rings, a.unsaturation⟩

/-- The fields of a bond read by the aromaticity computations (everything
except the `isAro` flag). -/
structure BondCore where
  id : Nat
  a1 : Nat
  a2 : Nat
  bType : BondType
  rings : List Nat
deriving DecidableEq, Inhabited

/-- Project a bond to its aromaticity-relevant core. -/
def Bond.core (b : Bond) : BondCore :=
  ⟨b.id, b.a1, b.a2, b.bType, b.rings⟩

/-- The fields of a ring read by the aromaticity computations (everything
except the `isAro` and `isHetAro` flags). -/
structure RingCore where
  id : Nat
  atoms : List Nat
  bonds : List Nat
  atomBitSet : List Nat
  bondBitSet : List Nat
  isComplete : Bool
deriving DecidableEq, Inhabited

/-- Project a ring to its aromaticity-relevant core. -/
def Ring.core (r : Ring) : RingCore :=
  ⟨r.id, r.atoms, r.bonds, r.atomBitSet, r.bondBitSet, r.isComplete⟩

/-- Core equality of molecules: the aromaticity-marking passes may change
flags but never the cores. -/
def coreEq (m m' : Molecule) : Prop :=
  m.atoms.map Atom.core = m'.atoms.map Atom.core ∧
  m.bonds.map Bond.core = m'.bonds.map Bond.core ∧
  m.rings.map Ring.core = m'.rings.map Ring.core

/-- A single bond for the claim C7 witness. -/
def bondW1 : Bond :=
  { id := 1, a1 := 1, a2 := 2, bType := BondType.single, isAro := false, rings := [] }

/-- A double bond for the claim C7 witness. -/
def bondW2 : Bond :=
  { id := 2, a1 := 1, a2 := 3, bType := BondType.double, isAro := false, rings := [] }

/-- The operation sequence of the claim C7 witness. -/
def opsW : List BondOp :=
  [BondOp.add bondW1, BondOp.add bondW2, BondOp.remove bondW1]

/-- The atom of the claim C4 witness: neutral carbon with one attached
hydrogen. -/
def exAtomC4 : Atom :=
  { newAtomState 6 1 with hCount := 1 }

/-- The endpoint whose `hCount` the hydrogen branch of
`BondBuilder.Atoms` increments: the second endpoint when the first is a
hydrogen, the first otherwise. -/
def hydrogenDropTarget (m : Molecule) (a1 a2 : Nat) : Nat :=
  if (m.atomWithIidD a1).atNum = 1 then a2 else a1

/-- The invariant tying an atom's concrete bond bookkeeping to the ghost
set `cur` of its currently incident bonds: bond orders are real, the three
`uint8` counters count the bonds of each order exactly (and cannot have
wrapped), the expanded neighbour list realises each bond's other endpoint
once per order unit, the bond-id set matches, and — "at most one bond
joins any pair of atoms" — distinct incident bonds reach distinct
neighbours. -/
def bondInv (aiid : Nat) (cur : List Bond) (a : Atom) : Prop :=
  a.iId = aiid ∧
  (∀ c ∈ cur, c.bType = BondType.single ∨ c.bType = BondType.double ∨ c.bType = BondType.triple) ∧
  cur.length ≤ 255 ∧
  a.singleBondCount = cur.countP (fun c => c.bType == BondType.single) ∧
  a.doubleBondCount = cur.countP (fun c => c.bType == BondType.double) ∧
  a.tripleBondCount = cur.countP (fun c => c.bType == BondType.triple) ∧
  a.nbrs.length = (cur.map (fun c => c.bType.toNat)).sum ∧
  (∀ x : Nat, a.nbrs.count x =
    ((cur.filter (fun c => c.otherAtomIid aiid == x)).map (fun c => c.bType.toNat)).sum) ∧
  (∀ bid : Nat, bid ∈ a.bonds ↔ bid ∈ cur.map Bond.id) ∧
  a.bonds.Nodup ∧
  (cur.map Bond.id).Nodup ∧
  List.Pairwise (fun c d => c.otherAtomIid aiid ≠ d.otherAtomIid aiid) cur

/-- The ghost incident-bond set after a whole operation sequence. -/
def ghostRun (cur : List Bond) (ops : List BondOp) : List Bond :=
  ops.foldl ghostStep cur

theorem find?_updateFirst {α : Type} (key : α → Nat) (id x : Nat) (f : α → α)
    (hf : ∀ a, key (f a) = key a) (l : List α) :
    (updateFirst key id f l).find? (fun a => key a == x) =
      if x = id then (l.find? (fun a => key a == id)).map f
      else l.find? (fun a => key a == x) := by
  induction l with
  | nil => simp [updateFirst]
  | cons a rest ih =>
    simp only [updateFirst]
    by_cases hk : key a = id
    · by_cases hx : x = id
      · subst hx
        simp [List.find?_cons, hf, hk]
      · simp [List.find?_cons, hf, hk, hx, Ne.symm hx]
    · by_cases hx : x = id
      · subst hx
        simp [List.find?_cons, hk, ih]
      · by_cases hp : key a = x
        · simp [List.find?_cons, hp, hx]
        · simp [List.find?_cons, hk, hp, hx, ih]

theorem map_updateFirst {α β : Type} (key : α → Nat) (id : Nat) (f : α → α) (g : α → β)
    (hg : ∀ a, g (f a) = g a) (l : List α) :
    (updateFirst key id f l).map g = l.map g := by
  induction l with
  | nil => rfl
  | cons a rest ih =>
    simp only [updateFirst]
    by_cases hk : key a = id
    · simp [hk, hg]
    · simp [hk, ih]

/-- C9: `BondBuilder.BondType(order)` succeeds, recording the given order
on the bond under construction, exactly for the orders single, double and
triple; the orders none and alternating (the only other values of the
bond-type enum) are rejected with an error, leaving the bond unchanged. -/
theorem bondBuilderBondType_accepts_iff (b : Bond) (bt : BondType) :
    (bondBuilderBondType b bt = some { b with bType := bt } ↔
      (bt = BondType.single ∨ bt = BondType.double ∨ bt = BondType.triple)) ∧
    (bondBuilderBondType b bt = Option.none ↔
      (bt = BondType.none ∨ bt = BondType.altern)) := by
  cases bt <;> simp [bondBuilderBondType]

/-- C10: `otherAtomIid` answers the partner endpoint when given either
endpoint id, and the sentinel 0 for any other id; and in a molecule whose
atom input ids are 1-based, the id 0 names no atom, so the sentinel cannot
collide with a real atom. -/
theorem otherAtomIid_spec (b : Bond) (x : Nat) (m : Molecule)
    (hids : ∀ a ∈ m.atoms, 1 ≤ a.iId) :
    (x = b.a1 → b.otherAtomIid x = b.a2) ∧
    (x = b.a2 → b.otherAtomIid x = b.a1) ∧
    (x ≠ b.a1 → x ≠ b.a2 → b.otherAtomIid x = 0) ∧
    m.atomWithIid 0 = Option.none := by
  refine ⟨?_, ?_, ?_, ?_⟩
  · rintro rfl
    simp [Bond.otherAtomIid]
  · rintro rfl
    unfold Bond.otherAtomIid
    by_cases h : b.a1 = b.a2
    · simp [h]
    · simp [h]
  · intro h1 h2
    have g1 : b.a1 ≠ x := fun h => h1 h.symm
    have g2 : b.a2 ≠ x := fun h => h2 h.symm
    simp [Bond.otherAtomIid, g1, g2]
  · rw [Molecule.atomWithIid, List.find?_eq_none]
    intro a ha
    have := hids a ha
    simp
    omega

/-- C10 witness: the theorem applied to the bond 1-2 of `exMolC6`, the id
5 and the 1-based molecule `exMolC6`. -/
theorem otherAtomIid_spec_witness :
    (∀ a ∈ exMolC6.atoms, 1 ≤ a.iId) ∧
    ((5 = bondW1.a1 → bondW1.otherAtomIid 5 = bondW1.a2) ∧
      (5 = bondW1.a2 → bondW1.otherAtomIid 5 = bondW1.a1) ∧
      (5 ≠ bondW1.a1 → 5 ≠ bondW1.a2 → bondW1.otherAtomIid 5 = 0) ∧
      exMolC6.atomWithIid 0 = Option.none) :=
  ⟨by decide, otherAtomIid_spec bondW1 5 exMolC6 (by decide)⟩

theorem wrap8_eq_self {x : Int} (h0 : 0 ≤ x) (h1 : x ≤ 127) : wrap8 x = x := by
  unfold wrap8
  omega

/-- C4: `determineUnsaturation` returns an error exactly when the atom is
neutral, has positive `hCount`, and its inferred oxidation state
`|neighbours| + hCount` is refused by the element table's validity check;
every atom with non-zero charge is classified `Charged` and never raises
the error.  `validOS` abstracts `cmn.IsValidOxidationState`, whose source
is not provided; the bound keeps the source's `int8` casts exact. -/
theorem determineUnsaturation_error_iff (validOS : Nat → Int → Bool) (m : Molecule) (a : Atom)
    (hbound : a.nbrs.length + a.hCount ≤ 127) :
    (determineUnsaturation validOS m a = Option.none ↔
      (a.charge = 0 ∧ 0 < a.hCount ∧
        validOS a.atNum ((a.nbrs.length : Int) + (a.hCount : Int)) = false)) ∧
    (a.charge ≠ 0 →
      determineUnsaturation validOS m a = some { a with unsaturation := Unsaturation.charged }) := by
  have hn : wrap8 (a.nbrs.length : Int) = (a.nbrs.length : Int) :=
    wrap8_eq_self (by positivity) (by omega)
  have hh : wrap8 (a.hCount : Int) = (a.hCount : Int) :=
    wrap8_eq_self (by positivity) (by omega)
  have hw : wrap8 (wrap8 (a.nbrs.length : Int) + wrap8 (a.hCount : Int)) =
      (a.nbrs.length : Int) + (a.hCount : Int) := by
    rw [hn, hh]
    exact wrap8_eq_self (by positivity) (by omega)
  constructor
  · constructor
    · intro hnone
      simp only [determineUnsaturation, hw] at hnone
      by_cases h1 : a.charge ≠ 0
      · rw [if_pos h1] at hnone
        exact absurd hnone (by simp)
      · rw [if_neg h1] at hnone
        by_cases h2 : 0 < a.hCount ∧
            validOS a.atNum ((a.nbrs.length : Int) + (a.hCount : Int)) = false
        · exact ⟨not_not.mp h1, h2.1, h2.2⟩
        · rw [if_neg h2] at hnone
          by_cases h3 : a.bonds.length = a.nbrs.length
          · rw [if_pos h3] at hnone
            exact absurd hnone (by simp)
          · rw [if_neg h3] at hnone
            by_cases h4 : 0 < List.countP (fun b => b.bType == BondType.triple)
                (List.map m.bondWithIdD a.bonds)
            · rw [if_pos h4] at hnone
              exact absurd hnone (by simp)
            · rw [if_neg h4] at hnone
              by_cases h5 : 0 < List.countP (fun b => b.bType == BondType.double)
                  (List.map m.bondWithIdD a.bonds)
              · rw [if_pos h5] at hnone
                exact absurd hnone (by simp)
              · rw [if_neg h5] at hnone
                exact absurd hnone (by simp)
    · rintro ⟨hc, hh', hv⟩
      simp only [determineUnsaturation, hw]
      rw [if_neg (by simp [hc]), if_pos ⟨hh', hv⟩]
  · intro hc
    simp only [determineUnsaturation]
    rw [if_pos hc]

/-- C4 witness: the theorem applied to a neutral carbon with one hydrogen
and an oxidation-state check that refuses everything. -/
theorem determineUnsaturation_error_iff_witness :
    (exAtomC4.nbrs.length + exAtomC4.hCount ≤ 127) ∧
    ((determineUnsaturation (fun _ _ => false) exMolC6 exAtomC4 = Option.none ↔
      (exAtomC4.charge = 0 ∧ 0 < exAtomC4.hCount ∧
        (fun (_ : Nat) (_ : Int) => false) exAtomC4.atNum
          ((exAtomC4.nbrs.length : Int) + (exAtomC4.hCount : Int)) = false)) ∧
    (exAtomC4.charge ≠ 0 →
      determineUnsaturation (fun _ _ => false) exMolC6 exAtomC4 =
        some { exAtomC4 with unsaturation := Unsaturation.charged })) :=
  ⟨by decide, determineUnsaturation_error_iff (fun _ _ => false) exMolC6 exAtomC4 (by decide)⟩

theorem hCountOf_incHCount_other (m : Molecule) (y x : Nat) (hxy : x ≠ y) :
    hCountOf (incHCount m y) x = hCountOf m x := by
  have hatoms : (incHCount m y).atoms =
      updateFirst Atom.iId y (fun a => { a with hCount := (a.hCount + 1) % 256 }) m.atoms := rfl
  unfold hCountOf Molecule.atomWithIidD Molecule.atomWithIid
  rw [hatoms,
    find?_updateFirst Atom.iId y x (fun a => { a with hCount := (a.hCount + 1) % 256 })
      (fun a => rfl) m.atoms,
    if_neg hxy]

theorem hCountOf_incHCount_self (m : Molecule) (y : Nat)
    (hy : (m.atomWithIid y).isSome) :
    hCountOf (incHCount m y) y = (hCountOf m y + 1) % 256 := by
  obtain ⟨a, ha⟩ := Option.isSome_iff_exists.mp hy
  unfold Molecule.atomWithIid at ha
  have hatoms : (incHCount m y).atoms =
      updateFirst Atom.iId y (fun a => { a with hCount := (a.hCount + 1) % 256 }) m.atoms := rfl
  unfold hCountOf Molecule.atomWithIidD Molecule.atomWithIid
  rw [hatoms,
    find?_updateFirst Atom.iId y y (fun a => { a with hCount := (a.hCount + 1) % 256 })
      (fun a => rfl) m.atoms,
    if_pos rfl, ha]
  rfl

/-- C8 (amended): when both endpoint ids of an `atoms(a1, a2)` call exist
and at least one endpoint is a hydrogen, the bond under construction is
discarded, the non-fatal hydrogen-bond condition is signalled, and the
`hCount` incremented (by one, as a `uint8`) is that of the second endpoint
when the first is a hydrogen and that of the first endpoint otherwise;
every other atom's `hCount` is unchanged.  When exactly one endpoint is a
hydrogen, the incremented endpoint is the heavy one. -/
theorem bondBuilderAtoms_hydrogen (m : Molecule) (b : Bond) (a1 a2 : Nat)
    (h1 : (m.atomWithIid a1).isSome) (h2 : (m.atomWithIid a2).isSome)
    (hH : (m.atomWithIidD a1).atNum = 1 ∨ (m.atomWithIidD a2).atNum = 1) :
    (bondBuilderAtoms m b a1 a2).2.1 = Option.none ∧
    (bondBuilderAtoms m b a1 a2).2.2 = BBStatus.hydrogenBond ∧
    hCountOf (bondBuilderAtoms m b a1 a2).1 (hydrogenDropTarget m a1 a2) =
      (hCountOf m (hydrogenDropTarget m a1 a2) + 1) % 256 ∧
    (∀ x, x ≠ hydrogenDropTarget m a1 a2 →
      hCountOf (bondBuilderAtoms m b a1 a2).1 x = hCountOf m x) ∧
    ((m.atomWithIidD a1).atNum = 1 → (m.atomWithIidD a2).atNum ≠ 1 →
      heavyEndpoint m a1 a2 (hydrogenDropTarget m a1 a2)) ∧
    ((m.atomWithIidD a1).atNum ≠ 1 →
      heavyEndpoint m a1 a2 (hydrogenDropTarget m a1 a2)) := by
  obtain ⟨A1, hA1⟩ := Option.isSome_iff_exists.mp h1
  obtain ⟨A2, hA2⟩ := Option.isSome_iff_exists.mp h2
  have hD1 : m.atomWithIidD a1 = A1 := by
    unfold Molecule.atomWithIidD
    rw [hA1]
    rfl
  have hD2 : m.atomWithIidD a2 = A2 := by
    unfold Molecule.atomWithIidD
    rw [hA2]
    rfl
  by_cases e1 : A1.atNum = 1
  · have htgt : hydrogenDropTarget m a1 a2 = a2 := by
      unfold hydrogenDropTarget
      rw [hD1, if_pos e1]
    have hres : bondBuilderAtoms m b a1 a2 = (incHCount m a2, Option.none, BBStatus.hydrogenBond) := by
      unfold bondBuilderAtoms
      rw [hA1, hA2]
      simp [e1]
    rw [htgt, hres]
    refine ⟨rfl, rfl, hCountOf_incHCount_self m a2 h2, ?_, ?_, ?_⟩
    · intro x hx
      exact hCountOf_incHCount_other m a2 x hx
    · intro _ hA2ne
      exact ⟨Or.inr rfl, hA2ne⟩
    · intro hA1ne
      exact absurd (hD1 ▸ e1) hA1ne
  · have e1' : (m.atomWithIidD a1).atNum ≠ 1 := by
      rw [hD1]
      exact e1
    have e2 : A2.atNum = 1 := by
      rcases hH with h | h
      · exact absurd (hD1 ▸ h) e1
      · exact hD2 ▸ h
    have htgt : hydrogenDropTarget m a1 a2 = a1 := by
      unfold hydrogenDropTarget
      rw [hD1, if_neg e1]
    have hres : bondBuilderAtoms m b a1 a2 = (incHCount m a1, Option.none, BBStatus.hydrogenBond) := by
      unfold bondBuilderAtoms
      rw [hA1, hA2]
      simp [e1, e2]
    rw [htgt, hres]
    refine ⟨rfl, rfl, hCountOf_incHCount_self m a1 h1, ?_, ?_, ?_⟩
    · intro x hx
      exact hCountOf_incHCount_other m a1 x hx
    · intro hA1H _
      exact absurd hA1H e1'
    · intro _
      exact ⟨Or.inl rfl, e1'⟩

/-- C8 witness: the amended theorem applied to the two-hydrogen molecule
`exMolC8` (the drop target is endpoint 2). -/
theorem bondBuilderAtoms_hydrogen_witness :
    ((exMolC8.atomWithIid 1).isSome ∧ (exMolC8.atomWithIid 2).isSome ∧
      ((exMolC8.atomWithIidD 1).atNum = 1 ∨ (exMolC8.atomWithIidD 2).atNum = 1)) ∧
    ((bondBuilderAtoms exMolC8 bondW1 1 2).2.1 = Option.none ∧
      (bondBuilderAtoms exMolC8 bondW1 1 2).2.2 = BBStatus.hydrogenBond ∧
      hCountOf (bondBuilderAtoms exMolC8 bondW1 1 2).1 (hydrogenDropTarget exMolC8 1 2) =
        (hCountOf exMolC8 (hydrogenDropTarget exMolC8 1 2) + 1) % 256 ∧
      (∀ x, x ≠ hydrogenDropTarget exMolC8 1 2 →
        hCountOf (bondBuilderAtoms exMolC8 bondW1 1 2).1 x = hCountOf exMolC8 x) ∧
      ((exMolC8.atomWithIidD 1).atNum = 1 → (exMolC8.atomWithIidD 2).atNum ≠ 1 →
        heavyEndpoint exMolC8 1 2 (hydrogenDropTarget exMolC8 1 2)) ∧
      ((exMolC8.atomWithIidD 1).atNum ≠ 1 →
        heavyEndpoint exMolC8 1 2 (hydrogenDropTarget exMolC8 1 2))) :=
  ⟨⟨by decide, by decide, by decide⟩,
    bondBuilderAtoms_hydrogen exMolC8 bondW1 1 2 (by decide) (by decide) (by decide)⟩

/-- C8 counterexample: on the call `atoms(1, 2)` over `exMolC8`, whose two
endpoints are both hydrogens, the claim as stated fails: there is no heavy
endpoint, yet the `hCount` of atom 2 changes. -/
theorem bondBuilderAtoms_claim_fails_on_HH :
    ¬ claimC8At exMolC8 bondW1 1 2 := by
  intro h
  have hnh : ¬ heavyEndpoint exMolC8 1 2 2 := fun hh => hh.2 (by decide)
  have hx := h.2.2.2 2 hnh
  exact absurd hx (by decide)

theorem scanDoubleBond_eq_find (m : Molecule) (l : List Nat)
    (h : ((l.map m.bondWithIdD).find? (fun b => b.bType == BondType.double)).isSome) :
    scanDoubleBond m l = (l.map m.bondWithIdD).find? (fun b => b.bType == BondType.double) := by
  induction l with
  | nil => simp at h
  | cons bid rest ih =>
    cases rest with
    | nil =>
      by_cases hd : ((m.bondWithIdD bid).bType == BondType.double) = true
      · simp [scanDoubleBond, List.find?_cons, hd]
      · have hd0 : ((m.bondWithIdD bid).bType == BondType.double) = false := by
          simpa using hd
        simp [List.find?_cons, hd0] at h
    | cons bid2 rest2 =>
      have hscan : scanDoubleBond m (bid :: bid2 :: rest2) =
          if (m.bondWithIdD bid).bType = BondType.double then some (m.bondWithIdD bid)
          else scanDoubleBond m (bid2 :: rest2) := rfl
      by_cases hd : (m.bondWithIdD bid).bType = BondType.double
      · have hd1 : ((m.bondWithIdD bid).bType == BondType.double) = true := by simp [hd]
        rw [hscan, if_pos hd]
        simp [List.find?_cons, hd1]
      · have hd0 : ((m.bondWithIdD bid).bType == BondType.double) = false := by simp [hd]
        have htail : ((List.map m.bondWithIdD (bid2 :: rest2)).find?
            (fun b => b.bType == BondType.double)).isSome := by
          simpa [List.find?_cons, hd0] using h
        rw [hscan, if_neg hd, ih htail]
        simp [List.find?_cons, hd0]

theorem firstDoublyBondedNeighbour_eq (m : Molecule) (a : Atom) (b : Bond)
    (hdb : a.doubleBondCount ≠ 0)
    (hb : (a.bonds.map m.bondWithIdD).find? (fun b => b.bType == BondType.double) = some b) :
    a.firstDoublyBondedNeighbour m = some (b.otherAtomIid a.iId, b) := by
  unfold Atom.firstDoublyBondedNeighbour
  rw [if_neg hdb, hb]

/-- C3 (amended): `piElectronCount` computes exactly the claimed table,
with the sulfur key-120 case amended: the code awards 2 pi electrons when
the doubly-bonded partner is an oxygen and the double *bond* is non-cyclic
(exocyclic), rather than requiring the oxygen atom itself to be
non-cyclic.  The two hypotheses discharge the claim's presuppositions that
at key 120 a relevant double bond exists among the atom's bonds. -/
theorem piElectronCount_eq_specAmended (m : Molecule) (a : Atom)
    (hp1 : a.atNum = 6 → a.wtSum = 120 →
      ((a.bonds.map m.bondWithIdD).find? (fun b => b.bType == BondType.double)).isSome)
    (hp2 : a.atNum = 16 → a.wtSum = 120 →
      (a.doubleBondCount ≠ 0 ∧
        ((a.bonds.map m.bondWithIdD).find? (fun b => b.bType == BondType.double)).isSome)) :
    a.piElectronCount m = piElectronCountSpecAmended a m := by
  by_cases h6 : a.atNum = 6
  · by_cases k19 : a.wtSum = 19
    · simp [Atom.piElectronCount, piElectronCountSpecAmended, h6, k19]
    · by_cases k20 : a.wtSum = 20
      · simp [Atom.piElectronCount, piElectronCountSpecAmended, h6, k19, k20]
      · by_cases k110 : a.wtSum = 110
        · simp [Atom.piElectronCount, piElectronCountSpecAmended, h6, k19, k20, k110]
        · by_cases k120 : a.wtSum = 120
          · have hsc := scanDoubleBond_eq_find m a.bonds (hp1 h6 k120)
            simp [Atom.piElectronCount, piElectronCountSpecAmended, h6, k19, k20,
              k110, k120, hsc, relevantDoubleBond]
          · simp [Atom.piElectronCount, piElectronCountSpecAmended, h6, k19, k20,
              k110, k120]
  · by_cases h7 : a.atNum = 7
    · simp [Atom.piElectronCount, piElectronCountSpecAmended, h6, h7]
    · by_cases h8 : a.atNum = 8
      · simp [Atom.piElectronCount, piElectronCountSpecAmended, h6, h7, h8]
      · by_cases h16 : a.atNum = 16
        · by_cases k20 : a.wtSum = 20
          · simp [Atom.piElectronCount, piElectronCountSpecAmended, h6, h7, h8, h16, k20]
          · by_cases k111 : a.wtSum = 111
            · simp [Atom.piElectronCount, piElectronCountSpecAmended, h6, h7, h8, h16,
                k20, k111]
            · by_cases k120 : a.wtSum = 120
              · obtain ⟨hdb, hsome⟩ := hp2 h16 k120
                obtain ⟨b, hb⟩ := Option.isSome_iff_exists.mp hsome
                have hfd := firstDoublyBondedNeighbour_eq m a b hdb hb
                simp [Atom.piElectronCount, piElectronCountSpecAmended, h6, h7, h8, h16,
                  k20, k111, k120, hfd, hb, relevantDoubleBond]
              · simp [Atom.piElectronCount, piElectronCountSpecAmended, h6, h7, h8, h16,
                  k20, k111, k120]
        · simp [Atom.piElectronCount, piElectronCountSpecAmended, h6, h7, h8, h16]

/-- C3 witness: the amended theorem applied to the sulfur atom of
`exMolC3` (key 120, with its double bond exocyclic and the partner an
oxygen). -/
theorem piElectronCount_eq_specAmended_witness :
    (((exMolC3.atomWithIidD 1).atNum = 6 → (exMolC3.atomWithIidD 1).wtSum = 120 →
      (((exMolC3.atomWithIidD 1).bonds.map exMolC3.bondWithIdD).find?
        (fun b => b.bType == BondType.double)).isSome) ∧
    ((exMolC3.atomWithIidD 1).atNum = 16 → (exMolC3.atomWithIidD 1).wtSum = 120 →
      ((exMolC3.atomWithIidD 1).doubleBondCount ≠ 0 ∧
        (((exMolC3.atomWithIidD 1).bonds.map exMolC3.bondWithIdD).find?
          (fun b => b.bType == BondType.double)).isSome))) ∧
    (exMolC3.atomWithIidD 1).piElectronCount exMolC3 =
      piElectronCountSpecAmended (exMolC3.atomWithIidD 1) exMolC3 :=
  ⟨⟨by decide, by decide⟩,
    piElectronCount_eq_specAmended exMolC3 (exMolC3.atomWithIidD 1) (by decide) (by decide)⟩

/-- C3 counterexample: for the sulfur atom of `exMolC3` (key 120, exocyclic
double bond to an oxygen that itself lies in a ring), the code returns 2 pi
electrons while the claimed table, which tests the oxygen atom's
cyclicity, returns 0. -/
theorem piElectronCount_claim_fails_on_S120 :
    (exMolC3.atomWithIidD 1).piElectronCount exMolC3 ≠
      piElectronCountSpec (exMolC3.atomWithIidD 1) exMolC3 ∧
    (exMolC3.atomWithIidD 1).piElectronCount exMolC3 = (2, true) ∧
    piElectronCountSpec (exMolC3.atomWithIidD 1) exMolC3 = (0, true) := by
  refine ⟨by decide, by decide, by decide⟩

theorem minIdxAux_le (l : List Nat) : ∀ (i : Nat) (idx : Int) (mn : Nat),
    (minIdxAux l i idx mn).2 ≤ mn ∧ ∀ x ∈ l, (minIdxAux l i idx mn).2 ≤ x := by
  induction l with
  | nil =>
    intro i idx mn
    exact ⟨le_rfl, by simp⟩
  | cons nid rest ih =>
    intro i idx mn
    by_cases h : nid < mn
    · simp only [minIdxAux, if_pos h]
      obtain ⟨h1, h2⟩ := ih (i + 1) (i : Int) nid
      refine ⟨le_trans h1 (le_of_lt h), ?_⟩
      intro x hx
      rcases List.mem_cons.mp hx with rfl | hx
      · exact h1
      · exact h2 x hx
    · simp only [minIdxAux, if_neg h]
      obtain ⟨h1, h2⟩ := ih (i + 1) idx mn
      refine ⟨h1, ?_⟩
      intro x hx
      rcases List.mem_cons.mp hx with rfl | hx
      · exact le_trans h1 (le_of_not_lt h)
      · exact h2 x hx

theorem minIdxAux_src (l : List Nat) : ∀ (i : Nat) (idx : Int) (mn : Nat),
    minIdxAux l i idx mn = (idx, mn) ∨
    ∃ k, k < l.length ∧ (minIdxAux l i idx mn).1 = (i : Int) + k ∧
      l[k]? = some (minIdxAux l i idx mn).2 := by
  induction l with
  | nil =>
    intro i idx mn
    exact Or.inl rfl
  | cons nid rest ih =>
    intro i idx mn
    by_cases h : nid < mn
    · simp only [minIdxAux, if_pos h]
      rcases ih (i + 1) (i : Int) nid with heq | ⟨k, hk, h1, h2⟩
      · right
        refine ⟨0, by simp, ?_, ?_⟩
        · rw [heq]
          simp
        · rw [heq]
          simp
      · right
        refine ⟨k + 1, by simpa using hk, ?_, ?_⟩
        · rw [h1]
          push_cast
          ring
        · simpa using h2
    · simp only [minIdxAux, if_neg h]
      rcases ih (i + 1) idx mn with heq | ⟨k, hk, h1, h2⟩
      · exact Or.inl heq
      · right
        refine ⟨k + 1, by simpa using hk, ?_, ?_⟩
        · rw [h1]
          push_cast
          ring
        · simpa using h2

theorem minIdxAux_lt (l : List Nat) : ∀ (i : Nat) (idx : Int) (mn : Nat),
    (∃ x ∈ l, x < mn) → (minIdxAux l i idx mn).2 < mn := by
  induction l with
  | nil =>
    intro i idx mn h
    simp at h
  | cons nid rest ih =>
    intro i idx mn h
    by_cases hn : nid < mn
    · simp only [minIdxAux, if_pos hn]
      exact lt_of_le_of_lt (minIdxAux_le rest (i + 1) (i : Int) nid).1 hn
    · simp only [minIdxAux, if_neg hn]
      rcases h with ⟨x, hx, hlt⟩
      rcases List.mem_cons.mp hx with rfl | hx
      · exact absurd hlt hn
      · exact ih (i + 1) idx mn ⟨x, hx, hlt⟩

/-- C5 (amended): on a non-empty ring whose atoms carry normalised ids
below `MaxUint16`, `normalise` rotates the atom sequence so that the
(first) atom of minimal normalised id comes first; the result is a pure
cyclic rotation of the original sequence — no orientation (traversal
direction) is chosen or changed. -/
theorem normalise_rotates_min_first (m : Molecule) (r : Ring)
    (hne : r.atoms ≠ [])
    (hmin : ∃ aiid ∈ r.atoms, (m.atomWithIidD aiid).nId < 65535) :
    ∃ r', r.normalise m = some r' ∧
      List.IsRotated r.atoms r'.atoms ∧
      ∃ a0, r'.atoms.head? = some a0 ∧
        ∀ aiid ∈ r.atoms, (m.atomWithIidD a0).nId ≤ (m.atomWithIidD aiid).nId := by
  have hmin' : ∃ x ∈ r.atoms.map (fun aiid => (m.atomWithIidD aiid).nId), x < 65535 := by
    obtain ⟨aiid, ha, hlt⟩ := hmin
    exact ⟨(m.atomWithIidD aiid).nId,
      List.mem_map_of_mem (fun aiid => (m.atomWithIidD aiid).nId) ha, hlt⟩
  have hlt65535 := minIdxAux_lt (r.atoms.map (fun aiid => (m.atomWithIidD aiid).nId))
    0 (-1) 65535 hmin'
  rcases minIdxAux_src (r.atoms.map (fun aiid => (m.atomWithIidD aiid).nId)) 0 (-1) 65535
    with heq | ⟨k, hk, h1, h2⟩
  · rw [heq] at hlt65535
    simp at hlt65535
  · have hidx : (minIdxAux (r.atoms.map (fun aiid => (m.atomWithIidD aiid).nId))
        0 (-1) 65535).1 = (k : Int) := by
      rw [h1]
      simp
    have hk' : k < r.atoms.length := by simpa using hk
    have hnn : ¬ r.atoms.length = 0 := by
      intro h0
      exact hne (List.length_eq_zero.mp h0)
    have hres : r.normalise m = some { r with atoms := r.atoms.drop k ++ r.atoms.take k } := by
      simp only [Ring.normalise, hidx]
      rw [if_neg hnn, if_neg (by exact (Int.natCast_nonneg k).not_lt), Int.toNat_natCast]
    refine ⟨{ r with atoms := r.atoms.drop k ++ r.atoms.take k }, hres, ?_, ?_⟩
    · exact ⟨k, by rw [List.rotate_eq_drop_append_take (le_of_lt hk')]⟩
    · refine ⟨r.atoms[k], ?_, ?_⟩
      · show (r.atoms.drop k ++ r.atoms.take k).head? = some r.atoms[k]
        rw [List.drop_eq_getElem_cons hk']
        simp
      · intro aiid ha
        have h2' : (m.atomWithIidD r.atoms[k]).nId =
            (minIdxAux (r.atoms.map (fun aiid => (m.atomWithIidD aiid).nId)) 0 (-1) 65535).2 := by
          rw [List.getElem?_map, List.getElem?_eq_getElem hk'] at h2
          simpa using h2
        have hle := (minIdxAux_le (r.atoms.map (fun aiid => (m.atomWithIidD aiid).nId))
          0 (-1) 65535).2 ((m.atomWithIidD aiid).nId)
          (List.mem_map_of_mem (fun aiid => (m.atomWithIidD aiid).nId) ha)
        rw [← h2'] at hle
        exact hle

/-- C5 witness: the amended theorem applied to the three-atom ring of
`exMolC5`. -/
theorem normalise_rotates_min_first_witness :
    (exRingC5.atoms ≠ [] ∧
      (∃ aiid ∈ exRingC5.atoms, (exMolC5.atomWithIidD aiid).nId < 65535)) ∧
    (∃ r', exRingC5.normalise exMolC5 = some r' ∧
      List.IsRotated exRingC5.atoms r'.atoms ∧
      ∃ a0, r'.atoms.head? = some a0 ∧
        ∀ aiid ∈ exRingC5.atoms,
          (exMolC5.atomWithIidD a0).nId ≤ (exMolC5.atomWithIidD aiid).nId) :=
  ⟨⟨by decide, by decide⟩,
    normalise_rotates_min_first exMolC5 exRingC5 (by decide) (by decide)⟩

/-- C5 counterexample: on the ring `[1, 2, 3]` of `exMolC5` (normalised
ids 1, 3, 2), the code keeps the orientation and yields `[1, 2, 3]`, while
the claimed canonicalisation — which also fixes the orientation so that
the second atom has the smaller normalised id — yields `[1, 3, 2]`. -/
theorem normalise_claim_fails_on_orientation :
    (exRingC5.normalise exMolC5).map Ring.atoms = some [1, 2, 3] ∧
    normaliseSpec exRingC5 exMolC5 = some [1, 3, 2] ∧
    (exRingC5.normalise exMolC5).map Ring.atoms ≠ normaliseSpec exRingC5 exMolC5 := by
  refine ⟨by decide, by decide, by decide⟩

theorem piElectronCount_fst_nonneg (a : Atom) (m : Molecule) :
    0 ≤ (a.piElectronCount m).1 := by
  simp only [Atom.piElectronCount]
  repeat' split
  all_goals norm_num

theorem sumPi_fst_nonneg (m : Molecule) (ids : List Nat) :
    ∀ acc : Int, 0 ≤ acc → 0 ≤ (sumPi m ids acc).1 := by
  induction ids with
  | nil =>
    intro acc hacc
    exact hacc
  | cons x rest ih =>
    intro acc hacc
    simp only [sumPi]
    split
    · exact ih _ (by have := piElectronCount_fst_nonneg (m.atomWithIidD x) m; omega)
    · norm_num

theorem huckel_tmod_iff {n : Int} (hn : 0 ≤ n) :
    ((n - 2).tmod 4 = 0 ↔ (2 ≤ n ∧ (n - 2) % 4 = 0)) := by
  by_cases h2 : 2 ≤ n
  · rw [Int.tmod_eq_emod (by omega) (by omega)]
    simp [h2]
  · have : n = 0 ∨ n = 1 := by omega
    rcases this with rfl | rfl
    · decide
    · decide

theorem markAtomsAro_bonds (ids : List Nat) :
    ∀ m : Molecule, (markAtomsAro m ids).bonds = m.bonds := by
  induction ids with
  | nil =>
    intro m
    rfl
  | cons x rest ih =>
    intro m
    have hstep : markAtomsAro m (x :: rest) = markAtomsAro
        { m with atoms := updateFirst Atom.iId x (fun a => { a with isInAroRing := true }) m.atoms }
        rest := rfl
    rw [hstep, ih]

theorem markAtomsAro_rings (ids : List Nat) :
    ∀ m : Molecule, (markAtomsAro m ids).rings = m.rings := by
  induction ids with
  | nil =>
    intro m
    rfl
  | cons x rest ih =>
    intro m
    have hstep : markAtomsAro m (x :: rest) = markAtomsAro
        { m with atoms := updateFirst Atom.iId x (fun a => { a with isInAroRing := true }) m.atoms }
        rest := rfl
    rw [hstep, ih]

theorem markAtomsAro_ringSystems (ids : List Nat) :
    ∀ m : Molecule, (markAtomsAro m ids).ringSystems = m.ringSystems := by
  induction ids with
  | nil =>
    intro m
    rfl
  | cons x rest ih =>
    intro m
    have hstep : markAtomsAro m (x :: rest) = markAtomsAro
        { m with atoms := updateFirst Atom.iId x (fun a => { a with isInAroRing := true }) m.atoms }
        rest := rfl
    rw [hstep, ih]

theorem markBondsAro_atoms (ids : List Nat) :
    ∀ m : Molecule, (markBondsAro m ids).atoms = m.atoms := by
  induction ids with
  | nil =>
    intro m
    rfl
  | cons x rest ih =>
    intro m
    have hstep : markBondsAro m (x :: rest) = markBondsAro
        { m with bonds := updateFirst Bond.id x (fun b => { b with isAro := true }) m.bonds }
        rest := rfl
    rw [hstep, ih]

theorem markBondsAro_rings (ids : List Nat) :
    ∀ m : Molecule, (markBondsAro m ids).rings = m.rings := by
  induction ids with
  | nil =>
    intro m
    rfl
  | cons x rest ih =>
    intro m
    have hstep : markBondsAro m (x :: rest) = markBondsAro
        { m with bonds := updateFirst Bond.id x (fun b => { b with isAro := true }) m.bonds }
        rest := rfl
    rw [hstep, ih]

theorem markBondsAro_ringSystems (ids : List Nat) :
    ∀ m : Molecule, (markBondsAro m ids).ringSystems = m.ringSystems := by
  induction ids with
  | nil =>
    intro m
    rfl
  | cons x rest ih =>
    intro m
    have hstep : markBondsAro m (x :: rest) = markBondsAro
        { m with bonds := updateFirst Bond.id x (fun b => { b with isAro := true }) m.bonds }
        rest := rfl
    rw [hstep, ih]

theorem ringDA_ringSystems (m : Molecule) (rid : Nat) :
    (ringDetermineAromaticity m rid).ringSystems = m.ringSystems := by
  simp only [ringDetermineAromaticity]
  split_ifs <;>
    first
      | rfl
      | rw [markBondsAro_ringSystems, markAtomsAro_ringSystems]

theorem foldl_ringDA_ringSystems (l : List Nat) :
    ∀ m : Molecule, (l.foldl ringDetermineAromaticity m).ringSystems = m.ringSystems := by
  induction l with
  | nil =>
    intro m
    rfl
  | cons x rest ih =>
    intro m
    have hstep : (x :: rest).foldl ringDetermineAromaticity m =
        rest.foldl ringDetermineAromaticity (ringDetermineAromaticity m x) := rfl
    rw [hstep, ih, ringDA_ringSystems]

theorem ringWithId_eq_of_rings (m m' : Molecule) (h : m'.rings = m.rings) (x : Nat) :
    m'.ringWithId x = m.ringWithId x := by
  unfold Molecule.ringWithId
  rw [h]

theorem ringSystemWithId_eq_of_ringSystems (m m' : Molecule)
    (h : m'.ringSystems = m.ringSystems) (x : Nat) :
    m'.ringSystemWithId x = m.ringSystemWithId x := by
  unfold Molecule.ringSystemWithId
  rw [h]

/-- C2 counterexample: a ring system with a summed pi-electron count of 30
(> 26) over fifteen nitrogen atoms is marked aromatic by
`determineAromaticity` — no upper bound is enforced in the code. -/
theorem ringSystem_pi30_marked_aromatic :
    ((exMolC2.ringSystemWithIdD 1).piElectronCount exMolC2).1 = 30 ∧
    ((rsDetermineAromaticity exMolC2 1).ringSystemWithIdD 1).isAro = true := by
  refine ⟨by decide, by decide⟩

/-- C2 (amended): the aromaticity determiners apply Hückel's rule as the
bare test `(n − 2) tmod 4 == 0`, which for the (always non-negative) pi
sums is equivalent to `n ≥ 2 ∧ (n − 2) mod 4 = 0`; no upper bound `n ≤ 26`
is enforced.  A ring system (and, in the per-ring fallback, a ring) is
marked aromatic exactly when its pi count is aromaticity-compatible,
`n ≥ 2`, `(n − 2) mod 4 = 0`, and it contains no sp3 carbon. -/
theorem aromaticity_huckel_no_upper_bound (m : Molecule) (rsid rid : Nat)
    (rs : RingSystem) (r : Ring)
    (hrs : m.ringSystemWithId rsid = some rs) (hrs0 : rs.isAro = false)
    (hr : m.ringWithId rid = some r) (hr0 : r.isAro = false) :
    (((rsDetermineAromaticity m rsid).ringSystemWithIdD rsid).isAro = true ↔
      ((rs.piElectronCount m).2 = true ∧ 2 ≤ (rs.piElectronCount m).1 ∧
        ((rs.piElectronCount m).1 - 2) % 4 = 0 ∧
        rs.atomBitSet.any (sp3Carbon m) = false)) ∧
    (((ringDetermineAromaticity m rid).ringWithIdD rid).isAro = true ↔
      ((r.piElectronCount m).2 = true ∧ 2 ≤ (r.piElectronCount m).1 ∧
        ((r.piElectronCount m).1 - 2) % 4 = 0 ∧
        r.atoms.any (sp3Carbon m) = false)) := by
  have hrsD : m.ringSystemWithIdD rsid = rs := by
    unfold Molecule.ringSystemWithIdD
    rw [hrs]
    rfl
  have hrD : m.ringWithIdD rid = r := by
    unfold Molecule.ringWithIdD
    rw [hr]
    rfl
  have hnn_rs : 0 ≤ (rs.piElectronCount m).1 := sumPi_fst_nonneg m rs.atomBitSet 0 le_rfl
  have hnn_r : 0 ≤ (r.piElectronCount m).1 := sumPi_fst_nonneg m r.atoms 0 le_rfl
  constructor
  · by_cases herr : ringSystemErr m rs = true
    · have hsys : (rsDetermineAromaticity m rsid).ringSystems = m.ringSystems := by
        simp only [rsDetermineAromaticity, hrsD]
        rw [if_pos herr]
        exact foldl_ringDA_ringSystems rs.rings m
      have hlook : (rsDetermineAromaticity m rsid).ringSystemWithIdD rsid = rs := by
        unfold Molecule.ringSystemWithIdD
        rw [ringSystemWithId_eq_of_ringSystems m _ hsys, hrs]
        rfl
      rw [hlook, hrs0]
      constructor
      · intro hfalse
        exact absurd hfalse (by simp)
      · rintro ⟨hok, hge, hmod, hsp3⟩
        have htmod : (((rs.piElectronCount m).1 - 2).tmod 4 = 0) :=
          (huckel_tmod_iff hnn_rs).mpr ⟨hge, hmod⟩
        have : ringSystemErr m rs = false := by
          unfold ringSystemErr
          simp [hok, htmod, hsp3]
        rw [this] at herr
        exact absurd herr (by simp)
    · have herr' : ringSystemErr m rs = false := by
        revert herr
        cases ringSystemErr m rs <;> simp
      have hres : rsDetermineAromaticity m rsid = markBondsAro
          (markAtomsAro
            (Molecule.mk m.atoms m.bonds m.rings
              (updateFirst RingSystem.id rsid (fun s => { s with isAro := true }) m.ringSystems))
            rs.atomBitSet) rs.bondBitSet := by
        simp only [rsDetermineAromaticity, hrsD]
        rw [if_neg herr]
      have hsys : (rsDetermineAromaticity m rsid).ringSystems =
          updateFirst RingSystem.id rsid (fun s => { s with isAro := true }) m.ringSystems := by
        rw [hres, markBondsAro_ringSystems, markAtomsAro_ringSystems]
      have hlook : (rsDetermineAromaticity m rsid).ringSystemWithIdD rsid =
          { rs with isAro := true } := by
        unfold Molecule.ringSystemWithIdD Molecule.ringSystemWithId
        rw [hsys,
          find?_updateFirst RingSystem.id rsid rsid (fun s => { s with isAro := true })
            (fun s => rfl) m.ringSystems,
          if_pos rfl]
        unfold Molecule.ringSystemWithId at hrs
        rw [hrs]
        rfl
      rw [hlook]
      have hcomp : (rs.piElectronCount m).2 = true ∧
          (((rs.piElectronCount m).1 - 2).tmod 4 = 0) ∧
          rs.atomBitSet.any (sp3Carbon m) = false := by
        have := herr'
        unfold ringSystemErr at this
        simp only [Bool.or_eq_false_iff, Bool.not_eq_false', bne_eq_false_iff_eq] at this
        exact ⟨this.1.1, this.1.2, this.2⟩
      constructor
      · intro _
        obtain ⟨hge, hmod⟩ := (huckel_tmod_iff hnn_rs).mp hcomp.2.1
        exact ⟨hcomp.1, hge, hmod, hcomp.2.2⟩
      · intro _
        rfl
  · by_cases hc1 : (!(r.piElectronCount m).2) = true
    · have hres : ringDetermineAromaticity m rid = m := by
        simp only [ringDetermineAromaticity, hrD]
        rw [if_pos hc1]
      rw [hres]
      unfold Molecule.ringWithIdD
      rw [hr]
      show r.isAro = true ↔ _
      rw [hr0]
      constructor
      · intro hfalse
        exact absurd hfalse (by simp)
      · rintro ⟨hok, -, -, -⟩
        rw [hok] at hc1
        exact absurd hc1 (by simp)
    · have hok : (r.piElectronCount m).2 = true := by
        revert hc1
        cases (r.piElectronCount m).2 <;> simp
      by_cases hc2 : ((r.piElectronCount m).1 - 2).tmod 4 ≠ 0
      · have hres : ringDetermineAromaticity m rid = m := by
          simp only [ringDetermineAromaticity, hrD]
          rw [if_neg hc1, if_pos hc2]
        rw [hres]
        unfold Molecule.ringWithIdD
        rw [hr]
        show r.isAro = true ↔ _
        rw [hr0]
        constructor
        · intro hfalse
          exact absurd hfalse (by simp)
        · rintro ⟨-, hge, hmod, -⟩
          exact absurd ((huckel_tmod_iff hnn_r).mpr ⟨hge, hmod⟩) hc2
      · have htmod : ((r.piElectronCount m).1 - 2).tmod 4 = 0 := not_not.mp hc2
        by_cases hc3 : r.atoms.any (sp3Carbon m) = true
        · have hres : ringDetermineAromaticity m rid = m := by
            simp only [ringDetermineAromaticity, hrD]
            rw [if_neg hc1, if_neg hc2, if_pos hc3]
          rw [hres]
          unfold Molecule.ringWithIdD
          rw [hr]
          show r.isAro = true ↔ _
          rw [hr0]
          constructor
          · intro hfalse
            exact absurd hfalse (by simp)
          · rintro ⟨-, -, -, hsp3⟩
            rw [hsp3] at hc3
            exact absurd hc3 (by simp)
        · have hsp3 : r.atoms.any (sp3Carbon m) = false := by
            revert hc3
            cases r.atoms.any (sp3Carbon m) <;> simp
          have hres : ringDetermineAromaticity m rid = markBondsAro
              (markAtomsAro
                (Molecule.mk m.atoms m.bonds
                  (updateFirst Ring.id rid
                    (fun rr => Ring.mk rr.id rr.atoms rr.bonds rr.atomBitSet rr.bondBitSet true
                      (if r.atoms.any (fun aiid => (m.atomWithIidD aiid).atNum ≠ 6)
                        then true else rr.isHetAro) rr.isComplete)
                    m.rings)
                  m.ringSystems)
                r.atoms) r.bonds := by
            simp only [ringDetermineAromaticity, hrD]
            rw [if_neg hc1, if_neg hc2, if_neg hc3]
          have hrings : (ringDetermineAromaticity m rid).rings =
              updateFirst Ring.id rid
                (fun rr => Ring.mk rr.id rr.atoms rr.bonds rr.atomBitSet rr.bondBitSet true
                  (if r.atoms.any (fun aiid => (m.atomWithIidD aiid).atNum ≠ 6)
                    then true else rr.isHetAro) rr.isComplete)
                m.rings := by
            rw [hres, markBondsAro_rings, markAtomsAro_rings]
          have hlook : (ringDetermineAromaticity m rid).ringWithIdD rid =
              Ring.mk r.id r.atoms r.bonds r.atomBitSet r.bondBitSet true
                (if r.atoms.any (fun aiid => (m.atomWithIidD aiid).atNum ≠ 6)
                  then true else r.isHetAro) r.isComplete := by
            unfold Molecule.ringWithIdD Molecule.ringWithId
            rw [hrings,
              find?_updateFirst Ring.id rid rid
                (fun rr => Ring.mk rr.id rr.atoms rr.bonds rr.atomBitSet rr.bondBitSet true
                  (if r.atoms.any (fun aiid => (m.atomWithIidD aiid).atNum ≠ 6)
                    then true else rr.isHetAro) rr.isComplete)
                (fun rr => rfl) m.rings,
              if_pos rfl]
            unfold Molecule.ringWithId at hr
            rw [hr]
            rfl
          rw [hlook]
          constructor
          · intro _
            obtain ⟨hge, hmod⟩ := (huckel_tmod_iff hnn_r).mp htmod
            exact ⟨hok, hge, hmod, hsp3⟩
          · intro _
            rfl

/-- C2 witness: the amended theorem applied to benzene's single ring
system and single ring. -/
theorem aromaticity_huckel_no_upper_bound_witness :
    (benzene.ringSystemWithId 1 = some (benzene.ringSystemWithIdD 1) ∧
      (benzene.ringSystemWithIdD 1).isAro = false ∧
      benzene.ringWithId 1 = some (benzene.ringWithIdD 1) ∧
      (benzene.ringWithIdD 1).isAro = false) ∧
    ((((rsDetermineAromaticity benzene 1).ringSystemWithIdD 1).isAro = true ↔
      (((benzene.ringSystemWithIdD 1).piElectronCount benzene).2 = true ∧
        2 ≤ ((benzene.ringSystemWithIdD 1).piElectronCount benzene).1 ∧
        (((benzene.ringSystemWithIdD 1).piElectronCount benzene).1 - 2) % 4 = 0 ∧
        (benzene.ringSystemWithIdD 1).atomBitSet.any (sp3Carbon benzene) = false)) ∧
    (((ringDetermineAromaticity benzene 1).ringWithIdD 1).isAro = true ↔
      (((benzene.ringWithIdD 1).piElectronCount benzene).2 = true ∧
        2 ≤ ((benzene.ringWithIdD 1).piElectronCount benzene).1 ∧
        (((benzene.ringWithIdD 1).piElectronCount benzene).1 - 2) % 4 = 0 ∧
        (benzene.ringWithIdD 1).atoms.any (sp3Carbon benzene) = false))) :=
  ⟨⟨by decide, by decide, by decide, by decide⟩,
    aromaticity_huckel_no_upper_bound benzene 1 1
      (benzene.ringSystemWithIdD 1) (benzene.ringWithIdD 1)
      (by decide) (by decide) (by decide) (by decide)⟩

/-- C6: the code violates the no-duplicates invariant, contradicting
`addAtom`'s own documentation ("the given atom is ignored if it is already
a member of this ring"): the `size == 0` branch of `addAtom` never adds
the first atom to `atomBitSet`, so the membership test `hasAtom` misses it
for ever after.  Over `exMolC6` (in which at most one bond joins any pair
of atoms) the successful `addAtom` sequence 1, 2, 3, 1, 4 followed by a
successful `complete` yields a completed ring whose atom sequence repeats
atom 1 and whose bond sequence repeats bond 4. -/
theorem ring_addAtom_complete_duplicates :
    exRingC6.isSome = true ∧
    (exRingC6.getD emptyRing).isComplete = true ∧
    (exRingC6.getD emptyRing).atoms = [1, 2, 3, 1, 4] ∧
    (exRingC6.getD emptyRing).bonds = [1, 2, 3, 4, 4] ∧
    ¬ (exRingC6.getD emptyRing).atoms.Nodup ∧
    ¬ (exRingC6.getD emptyRing).bonds.Nodup ∧
    (∀ b1 ∈ exMolC6.bonds, ∀ b2 ∈ exMolC6.bonds,
      ((b1.a1 = b2.a1 ∧ b1.a2 = b2.a2) ∨ (b1.a1 = b2.a2 ∧ b1.a2 = b2.a1)) → b1 = b2) := by
  refine ⟨by decide, by decide, by decide, by decide, by decide, by decide, by decide⟩

theorem countP_cons_of_pos_wrap (cur : List Bond) (p : Bond → Bool) (b : Bond)
    (hlen : cur.length < 255) (hp : p b = true) :
    (cur.countP p + 1) % 256 = (b :: cur).countP p := by
  have h1 : cur.countP p ≤ cur.length := List.countP_le_length p
  rw [List.countP_cons, hp]
  simp only [if_true]
  omega

theorem filter_ne_length (l : List Nat) (v : Nat) :
    (l.filter (fun x => x ≠ v)).length = l.length - l.count v := by
  induction l with
  | nil => simp
  | cons a rest ih =>
    have hcl : rest.count v ≤ rest.length := List.count_le_length v rest
    by_cases hav : a = v
    · subst hav
      have hstep : (a :: rest).filter (fun x => x ≠ a) = rest.filter (fun x => x ≠ a) := by
        simp
      rw [hstep, ih, List.count_cons_self, List.length_cons]
      omega
    · have hstep : (a :: rest).filter (fun x => x ≠ v) = a :: rest.filter (fun x => x ≠ v) := by
        simp [hav]
      rw [hstep, List.length_cons, ih, List.count_cons_of_ne (fun h => hav h.symm),
        List.length_cons]
      omega

theorem count_filter_ne_self (l : List Nat) (v : Nat) :
    (l.filter (fun x => x ≠ v)).count v = 0 := by
  rw [List.count_eq_zero]
  intro hmem
  have := List.of_mem_filter hmem
  simp at this

theorem count_filter_ne_other (l : List Nat) (v x : Nat) (hx : x ≠ v) :
    (l.filter (fun y => y ≠ v)).count x = l.count x := by
  exact List.count_filter (by simpa using hx)

theorem bondInv_init (atNum aiid : Nat) : bondInv aiid [] (newAtomState atNum aiid) := by
  refine ⟨rfl, ?_, ?_, ?_, ?_, ?_, ?_, ?_, ?_, ?_, ?_, ?_⟩ <;> simp [newAtomState]

theorem bondInv_addBond (aiid : Nat) (cur : List Bond) (a : Atom) (b : Bond)
    (hinv : bondInv aiid cur a) (hop : validBondOp aiid cur (BondOp.add b)) :
    bondInv aiid (ghostStep cur (BondOp.add b)) (a.addBond b) := by
  obtain ⟨hiid, hty, hlen, hsb, hdb, htb, hnl, hncnt, hmem, hnd, hndid, hpw⟩ := hinv
  obtain ⟨hbty, hlen', hdistinct⟩ := hop
  show bondInv aiid (if b.id ∈ cur.map Bond.id then cur else b :: cur) (a.addBond b)
  by_cases hid : b.id ∈ cur.map Bond.id
  · rw [if_pos hid]
    have hcond : b.id ∈ a.bonds := (hmem b.id).mpr hid
    unfold Atom.addBond
    rw [if_pos hcond]
    exact ⟨hiid, hty, hlen, hsb, hdb, htb, hnl, hncnt, hmem, hnd, hndid, hpw⟩
  · rw [if_neg hid]
    have hcond : ¬ b.id ∈ a.bonds := fun hc => hid ((hmem b.id).mp hc)
    have hidne : ∀ c ∈ cur, c.id ≠ b.id := by
      intro c hc hceq
      exact hid (hceq ▸ List.mem_map_of_mem Bond.id hc)
    unfold Atom.addBond
    rw [if_neg hcond]
    have hinsert : a.bonds.insert b.id = b.id :: a.bonds := List.insert_of_not_mem hcond
    refine ⟨hiid, ?_, ?_, ?_, ?_, ?_, ?_, ?_, ?_, ?_, ?_, ?_⟩
    · intro c hc
      rcases List.mem_cons.mp hc with rfl | hc
      · exact hbty
      · exact hty c hc
    · simp only [List.length_cons]
      omega
    · show (if b.bType.toNat = 1 then (a.singleBondCount + 1) % 256 else a.singleBondCount) = _
      rcases hbty with hbt | hbt | hbt
      · rw [hbt]
        show (a.singleBondCount + 1) % 256 = _
        rw [hsb]
        exact countP_cons_of_pos_wrap cur _ b hlen' (by simp [hbt])
      · rw [hbt]
        show a.singleBondCount = _
        rw [hsb, List.countP_cons]
        simp [hbt]
      · rw [hbt]
        show a.singleBondCount = _
        rw [hsb, List.countP_cons]
        simp [hbt]
    · show (if b.bType.toNat = 2 then (a.doubleBondCount + 1) % 256 else a.doubleBondCount) = _
      rcases hbty with hbt | hbt | hbt
      · rw [hbt]
        show a.doubleBondCount = _
        rw [hdb, List.countP_cons]
        simp [hbt]
      · rw [hbt]
        show (a.doubleBondCount + 1) % 256 = _
        rw [hdb]
        exact countP_cons_of_pos_wrap cur _ b hlen' (by simp [hbt])
      · rw [hbt]
        show a.doubleBondCount = _
        rw [hdb, List.countP_cons]
        simp [hbt]
    · show (if b.bType.toNat = 3 then (a.tripleBondCount + 1) % 256 else a.tripleBondCount) = _
      rcases hbty with hbt | hbt | hbt
      · rw [hbt]
        show a.tripleBondCount = _
        rw [htb, List.countP_cons]
        simp [hbt]
      · rw [hbt]
        show a.tripleBondCount = _
        rw [htb, List.countP_cons]
        simp [hbt]
      · rw [hbt]
        show (a.tripleBondCount + 1) % 256 = _
        rw [htb]
        exact countP_cons_of_pos_wrap cur _ b hlen' (by simp [hbt])
    · show (a.nbrs ++ List.replicate b.bType.toNat (b.otherAtomIid a.iId)).length = _
      rw [List.length_append, List.length_replicate, hnl, List.map_cons, List.sum_cons]
      omega
    · intro x
      show (a.nbrs ++ List.replicate b.bType.toNat (b.otherAtomIid a.iId)).count x = _
      rw [List.count_append, List.count_replicate, hiid, List.filter_cons]
      by_cases hx : (b.otherAtomIid aiid == x) = true
      · rw [if_pos hx, if_pos hx, List.map_cons, List.sum_cons, hncnt x]
        omega
      · rw [if_neg hx, if_neg hx, hncnt x]
        omega
    · intro bid
      show bid ∈ a.bonds.insert b.id ↔ _
      rw [hinsert, List.map_cons]
      simp only [List.mem_cons]
      rw [hmem bid]
    · show (a.bonds.insert b.id).Nodup
      rw [hinsert]
      exact List.nodup_cons.mpr ⟨hcond, hnd⟩
    · rw [List.map_cons]
      exact List.nodup_cons.mpr ⟨hid, hndid⟩
    · refine List.pairwise_cons.mpr ⟨?_, hpw⟩
      intro c hc
      exact (hdistinct c hc (hidne c hc)).symm

theorem bondInv_removeBond (aiid : Nat) (cur : List Bond) (a : Atom) (b : Bond)
    (hinv : bondInv aiid cur a) (hop : validBondOp aiid cur (BondOp.remove b)) :
    bondInv aiid (ghostStep cur (BondOp.remove b)) (a.removeBond b) := by
  obtain ⟨hiid, hty, hlen, hsb, hdb, htb, hnl, hncnt, hmem, hnd, hndid, hpw⟩ := hinv
  have hb : b ∈ cur := hop
  have hperm : cur.Perm (b :: cur.erase b) := List.perm_cons_erase hb
  have hpermid : (cur.map Bond.id).Perm (b.id :: (cur.erase b).map Bond.id) := by
    simpa using hperm.map Bond.id
  have hndid' : (b.id :: (cur.erase b).map Bond.id).Nodup := hpermid.nodup_iff.mp hndid
  have hbid_not : b.id ∉ (cur.erase b).map Bond.id := (List.nodup_cons.mp hndid').1
  have hndid_e : ((cur.erase b).map Bond.id).Nodup := (List.nodup_cons.mp hndid').2
  have hpw' : List.Pairwise (fun c d => c.otherAtomIid aiid ≠ d.otherAtomIid aiid)
      (b :: cur.erase b) := (hperm.pairwise_iff (fun h => Ne.symm h)).mp hpw
  have hothers : ∀ c ∈ cur.erase b, c.otherAtomIid aiid ≠ b.otherAtomIid aiid := by
    intro c hc
    exact ((List.pairwise_cons.mp hpw').1 c hc).symm
  have hcnt : ∀ p : Bond → Bool,
      cur.countP p = (cur.erase b).countP p + if p b then 1 else 0 := by
    intro p
    rw [hperm.countP_eq p, List.countP_cons]
  have hsum : (cur.map (fun c => c.bType.toNat)).sum =
      b.bType.toNat + ((cur.erase b).map (fun c => c.bType.toNat)).sum := by
    rw [(hperm.map (fun c => c.bType.toNat)).sum_eq, List.map_cons, List.sum_cons]
  have hfsum : ∀ x : Nat,
      ((cur.filter (fun c => c.otherAtomIid aiid == x)).map (fun c => c.bType.toNat)).sum =
      (if (b.otherAtomIid aiid == x) = true then b.bType.toNat else 0) +
      (((cur.erase b).filter (fun c => c.otherAtomIid aiid == x)).map
        (fun c => c.bType.toNat)).sum := by
    intro x
    rw [((hperm.filter (fun c => c.otherAtomIid aiid == x)).map (fun c => c.bType.toNat)).sum_eq,
      List.filter_cons]
    by_cases hbx : (b.otherAtomIid aiid == x) = true
    · rw [if_pos hbx, if_pos hbx, List.map_cons, List.sum_cons]
    · rw [if_neg hbx, if_neg hbx]
      omega
  have hemp : (cur.erase b).filter
      (fun c => c.otherAtomIid aiid == b.otherAtomIid aiid) = [] := by
    rw [List.filter_eq_nil_iff]
    intro c hc
    simpa using hothers c hc
  have hcnt_nbr : a.nbrs.count (b.otherAtomIid aiid) = b.bType.toNat := by
    rw [hncnt (b.otherAtomIid aiid), hfsum (b.otherAtomIid aiid), hemp]
    simp
  have hlen_e : (cur.erase b).length + 1 = cur.length := by
    rw [List.length_erase_of_mem hb]
    have : 1 ≤ cur.length := List.length_pos.mpr (List.ne_nil_of_mem hb)
    omega
  show bondInv aiid (cur.erase b) (a.removeBond b)
  refine ⟨hiid, ?_, ?_, ?_, ?_, ?_, ?_, ?_, ?_, ?_, ?_, ?_⟩
  · intro c hc
    exact hty c (List.mem_of_mem_erase hc)
  · omega
  · show (if b.bType = BondType.single then (a.singleBondCount + 255) % 256
      else a.singleBondCount) = _
    have hle : (cur.erase b).countP (fun c => c.bType == BondType.single) ≤ cur.length := by
      have := @List.countP_le_length Bond (fun c : Bond => c.bType == BondType.single)
        (cur.erase b)
      omega
    by_cases hbt : b.bType = BondType.single
    · rw [if_pos hbt, hsb, hcnt (fun c => c.bType == BondType.single)]
      rw [if_pos (by simp [hbt])]
      omega
    · rw [if_neg hbt, hsb, hcnt (fun c => c.bType == BondType.single)]
      rw [if_neg (by simp [hbt])]
      omega
  · show (if b.bType = BondType.double then (a.doubleBondCount + 255) % 256
      else a.doubleBondCount) = _
    have hle : (cur.erase b).countP (fun c => c.bType == BondType.double) ≤ cur.length := by
      have := @List.countP_le_length Bond (fun c : Bond => c.bType == BondType.double)
        (cur.erase b)
      omega
    by_cases hbt : b.bType = BondType.double
    · rw [if_pos hbt, hdb, hcnt (fun c => c.bType == BondType.double)]
      rw [if_pos (by simp [hbt])]
      omega
    · rw [if_neg hbt, hdb, hcnt (fun c => c.bType == BondType.double)]
      rw [if_neg (by simp [hbt])]
      omega
  · show (if b.bType = BondType.triple then (a.tripleBondCount + 255) % 256
      else a.tripleBondCount) = _
    have hle : (cur.erase b).countP (fun c => c.bType == BondType.triple) ≤ cur.length := by
      have := @List.countP_le_length Bond (fun c : Bond => c.bType == BondType.triple)
        (cur.erase b)
      omega
    by_cases hbt : b.bType = BondType.triple
    · rw [if_pos hbt, htb, hcnt (fun c => c.bType == BondType.triple)]
      rw [if_pos (by simp [hbt])]
      omega
    · rw [if_neg hbt, htb, hcnt (fun c => c.bType == BondType.triple)]
      rw [if_neg (by simp [hbt])]
      omega
  · show (a.nbrs.filter (fun nid => nid ≠ b.otherAtomIid a.iId)).length = _
    rw [hiid, filter_ne_length, hcnt_nbr, hnl, hsum]
    have : b.bType.toNat ≤ b.bType.toNat + ((cur.erase b).map (fun c => c.bType.toNat)).sum :=
      Nat.le_add_right _ _
    omega
  · intro x
    show (a.nbrs.filter (fun nid => nid ≠ b.otherAtomIid a.iId)).count x = _
    rw [hiid]
    by_cases hx : x = b.otherAtomIid aiid
    · subst hx
      rw [count_filter_ne_self, hemp]
      simp
    · rw [count_filter_ne_other a.nbrs (b.otherAtomIid aiid) x hx, hncnt x, hfsum x]
      rw [if_neg (by simpa using fun h => hx h.symm)]
      omega
  · intro bid
    show bid ∈ a.bonds.erase b.id ↔ _
    rw [hnd.mem_erase_iff]
    constructor
    · rintro ⟨hne, hmem'⟩
      have := (hmem bid).mp hmem'
      rcases List.mem_cons.mp (hpermid.mem_iff.mp this) with h | h
      · exact absurd h hne
      · exact h
    · intro hmem'
      refine ⟨?_, (hmem bid).mpr (hpermid.mem_iff.mpr (List.mem_cons.mpr (Or.inr hmem')))⟩
      intro heq
      exact hbid_not (heq ▸ hmem')
  · exact hnd.erase b.id
  · exact hndid_e
  · exact (List.pairwise_cons.mp hpw').2

theorem bondInv_ghostRun (aiid : Nat) : ∀ (ops : List BondOp) (cur : List Bond) (a : Atom),
    bondInv aiid cur a → validBondOps aiid cur ops →
    bondInv aiid (ghostRun cur ops) (applyBondOps a ops) := by
  intro ops
  induction ops with
  | nil =>
    intro cur a h _
    exact h
  | cons op rest ih =>
    intro cur a h hv
    obtain ⟨h1, h2⟩ := hv
    have hstep1 : ghostRun cur (op :: rest) = ghostRun (ghostStep cur op) rest := rfl
    have hstep2 : applyBondOps a (op :: rest) = applyBondOps (applyBondOp a op) rest := rfl
    rw [hstep1, hstep2]
    cases op with
    | add b => exact ih _ _ (bondInv_addBond aiid cur a b h h1) h2
    | remove b => exact ih _ _ (bondInv_removeBond aiid cur a b h h1) h2

@[simp] theorem bondTypeToNat_single : BondType.toNat BondType.single = 1 := rfl

@[simp] theorem bondTypeToNat_double : BondType.toNat BondType.double = 2 := rfl

@[simp] theorem bondTypeToNat_triple : BondType.toNat BondType.triple = 3 := rfl

theorem sumToNat_eq_counters (cur : List Bond)
    (h : ∀ c ∈ cur, c.bType = BondType.single ∨ c.bType = BondType.double ∨
      c.bType = BondType.triple) :
    (cur.map (fun c => c.bType.toNat)).sum =
      cur.countP (fun c => c.bType == BondType.single) +
      2 * cur.countP (fun c => c.bType == BondType.double) +
      3 * cur.countP (fun c => c.bType == BondType.triple) := by
  induction cur with
  | nil => simp
  | cons c rest ih =>
    have hc := h c (List.mem_cons_self c rest)
    have hr := ih (fun d hd => h d (List.mem_cons_of_mem _ hd))
    rcases hc with h1 | h1 | h1 <;>
      simp [h1, List.countP_cons, hr] <;> ring

/-- C7: starting from a freshly constructed atom, every valid sequence of
`addBond`/`removeBond` operations preserves
`singleBondCount + 2*doubleBondCount + 3*tripleBondCount = |nbrs|`.
Validity packages the claim's side conditions: each removed bond is
currently incident, at most one bond joins any pair of atoms (distinct
incident bonds reach distinct neighbours), each added bond carries a real
order (single, double or triple — the only orders the data model admits
for a molecule's bonds), and the incident-bond set stays within the
`uint8` counter range. -/
theorem addRemoveBond_count_invariant (atNum aiid : Nat) (ops : List BondOp)
    (hval : validBondOps aiid [] ops) :
    (applyBondOps (newAtomState atNum aiid) ops).singleBondCount +
      2 * (applyBondOps (newAtomState atNum aiid) ops).doubleBondCount +
      3 * (applyBondOps (newAtomState atNum aiid) ops).tripleBondCount =
      (applyBondOps (newAtomState atNum aiid) ops).nbrs.length := by
  have hinv := bondInv_ghostRun aiid ops [] (newAtomState atNum aiid)
    (bondInv_init atNum aiid) hval
  obtain ⟨hiid, hty, hlen, hsb, hdb, htb, hnl, _⟩ := hinv
  rw [hsb, hdb, htb, hnl, sumToNat_eq_counters _ hty]

/-- C7 witness: the theorem applied to the add-add-remove sequence
`opsW`. -/
theorem addRemoveBond_count_invariant_witness :
    validBondOps 1 [] opsW ∧
    ((applyBondOps (newAtomState 6 1) opsW).singleBondCount +
      2 * (applyBondOps (newAtomState 6 1) opsW).doubleBondCount +
      3 * (applyBondOps (newAtomState 6 1) opsW).tripleBondCount =
      (applyBondOps (newAtomState 6 1) opsW).nbrs.length) :=
  have hv : validBondOps 1 [] opsW :=
    ⟨⟨Or.inl rfl, by decide, by decide⟩,
      ⟨Or.inr (Or.inl rfl), by decide, by decide⟩,
      (by decide :
        bondW1 ∈ ghostStep (ghostStep [] (BondOp.add bondW1)) (BondOp.add bondW2)),
      trivial⟩
  ⟨hv, addRemoveBond_count_invariant 6 1 opsW hv⟩

theorem find?_key_congr {α β γ : Type} [BEq γ] (core : α → β) (key : α → γ)
    (hkey : ∀ a a' : α, core a = core a' → key a = key a') :
    ∀ (l l' : List α), l.map core = l'.map core → ∀ x : γ,
      Option.map core (l.find? (fun a => key a == x)) =
        Option.map core (l'.find? (fun a => key a == x)) := by
  intro l
  induction l with
  | nil =>
    intro l' h x
    cases l' with
    | nil => rfl
    | cons a' rest' => simp at h
  | cons a rest ih =>
    intro l' h x
    cases l' with
    | nil => simp at h
    | cons a' rest' =>
      simp only [List.map_cons, List.cons.injEq] at h
      obtain ⟨h1, h2⟩ := h
      have hk : key a = key a' := hkey a a' h1
      by_cases hx : (key a == x) = true
      · have hx' : (key a' == x) = true := by
          rw [← hk]
          exact hx
        simp only [List.find?_cons, hx, hx']
        simp [h1]
      · have hx0 : (key a == x) = false := by simpa using hx
        have hx' : (key a' == x) = false := by
          rw [← hk]
          exact hx0
        simp only [List.find?_cons, hx0, hx']
        exact ih rest' h2 x

theorem atomWithIid_core_congr {m m' : Molecule}
    (h : m.atoms.map Atom.core = m'.atoms.map Atom.core) (x : Nat) :
    Option.map Atom.core (m.atomWithIid x) = Option.map Atom.core (m'.atomWithIid x) :=
  find?_key_congr Atom.core Atom.iId (fun _ _ hc => congrArg AtomCore.iId hc)
    m.atoms m'.atoms h x

theorem bondWithId_core_congr {m m' : Molecule}
    (h : m.bonds.map Bond.core = m'.bonds.map Bond.core) (x : Nat) :
    Option.map Bond.core (m.bondWithId x) = Option.map Bond.core (m'.bondWithId x) :=
  find?_key_congr Bond.core Bond.id (fun _ _ hc => congrArg BondCore.id hc)
    m.bonds m'.bonds h x

theorem ringWithId_core_congr {m m' : Molecule}
    (h : m.rings.map Ring.core = m'.rings.map Ring.core) (x : Nat) :
    Option.map Ring.core (m.ringWithId x) = Option.map Ring.core (m'.ringWithId x) :=
  find?_key_congr Ring.core Ring.id (fun _ _ hc => congrArg RingCore.id hc)
    m.rings m'.rings h x

theorem countP_key_congr {α β : Type} (core : α → β) (q : α → Bool)
    (hq : ∀ a a' : α, core a = core a' → q a = q a') :
    ∀ (l l' : List α), l.map core = l'.map core → l.countP q = l'.countP q := by
  intro l
  induction l with
  | nil =>
    intro l' h
    cases l' with
    | nil => rfl
    | cons a' rest' => simp at h
  | cons a rest ih =>
    intro l' h
    cases l' with
    | nil => simp at h
    | cons a' rest' =>
      simp only [List.map_cons, List.cons.injEq] at h
      obtain ⟨h1, h2⟩ := h
      rw [List.countP_cons, List.countP_cons, hq a a' h1, ih rest' h2]

theorem atomWithIidD_core_congr {m m' : Molecule}
    (h : m.atoms.map Atom.core = m'.atoms.map Atom.core) (x : Nat) :
    Atom.core (m.atomWithIidD x) = Atom.core (m'.atomWithIidD x) := by
  unfold Molecule.atomWithIidD
  calc Atom.core ((m.atomWithIid x).getD default)
      = ((m.atomWithIid x).map Atom.core).getD (Atom.core default) :=
        (Option.getD_map Atom.core default (m.atomWithIid x)).symm
    _ = ((m'.atomWithIid x).map Atom.core).getD (Atom.core default) := by
        rw [atomWithIid_core_congr h x]
    _ = Atom.core ((m'.atomWithIid x).getD default) :=
        Option.getD_map Atom.core default (m'.atomWithIid x)

theorem bondWithIdD_core_congr {m m' : Molecule}
    (h : m.bonds.map Bond.core = m'.bonds.map Bond.core) (x : Nat) :
    Bond.core (m.bondWithIdD x) = Bond.core (m'.bondWithIdD x) := by
  unfold Molecule.bondWithIdD
  calc Bond.core ((m.bondWithId x).getD default)
      = ((m.bondWithId x).map Bond.core).getD (Bond.core default) :=
        (Option.getD_map Bond.core default (m.bondWithId x)).symm
    _ = ((m'.bondWithId x).map Bond.core).getD (Bond.core default) := by
        rw [bondWithId_core_congr h x]
    _ = Bond.core ((m'.bondWithId x).getD default) :=
        Option.getD_map Bond.core default (m'.bondWithId x)

theorem ringWithIdD_core_congr {m m' : Molecule}
    (h : m.rings.map Ring.core = m'.rings.map Ring.core) (x : Nat) :
    Ring.core (m.ringWithIdD x) = Ring.core (m'.ringWithIdD x) := by
  unfold Molecule.ringWithIdD
  calc Ring.core ((m.ringWithId x).getD default)
      = ((m.ringWithId x).map Ring.core).getD (Ring.core default) :=
        (Option.getD_map Ring.core default (m.ringWithId x)).symm
    _ = ((m'.ringWithId x).map Ring.core).getD (Ring.core default) := by
        rw [ringWithId_core_congr h x]
    _ = Ring.core ((m'.ringWithId x).getD default) :=
        Option.getD_map Ring.core default (m'.ringWithId x)

theorem otherAtomIid_congr {b b' : Bond} (h : Bond.core b = Bond.core b') (x : Nat) :
    b.otherAtomIid x = b'.otherAtomIid x := by
  have h1 : b.a1 = b'.a1 := congrArg BondCore.a1 h
  have h2 : b.a2 = b'.a2 := congrArg BondCore.a2 h
  unfold Bond.otherAtomIid
  rw [h1, h2]

theorem isCyclic_congr {b b' : Bond} (h : Bond.core b = Bond.core b') :
    b.isCyclic = b'.isCyclic := by
  have hr : b.rings = b'.rings := congrArg BondCore.rings h
  unfold Bond.isCyclic
  rw [hr]

theorem scanDoubleBond_congr {m m' : Molecule}
    (h : m.bonds.map Bond.core = m'.bonds.map Bond.core) :
    ∀ l : List Nat,
      Option.map Bond.core (scanDoubleBond m l) = Option.map Bond.core (scanDoubleBond m' l) := by
  intro l
  induction l with
  | nil => rfl
  | cons bid rest ih =>
    cases rest with
    | nil =>
      show some (Bond.core (m.bondWithIdD bid)) = some (Bond.core (m'.bondWithIdD bid))
      rw [bondWithIdD_core_congr h bid]
    | cons bid2 rest2 =>
      have hb := bondWithIdD_core_congr h bid
      have hbt : (m.bondWithIdD bid).bType = (m'.bondWithIdD bid).bType :=
        congrArg BondCore.bType hb
      have hscan : scanDoubleBond m (bid :: bid2 :: rest2) =
          if (m.bondWithIdD bid).bType = BondType.double then some (m.bondWithIdD bid)
          else scanDoubleBond m (bid2 :: rest2) := rfl
      have hscan' : scanDoubleBond m' (bid :: bid2 :: rest2) =
          if (m'.bondWithIdD bid).bType = BondType.double then some (m'.bondWithIdD bid)
          else scanDoubleBond m' (bid2 :: rest2) := rfl
      rw [hscan, hscan']
      by_cases hd : (m.bondWithIdD bid).bType = BondType.double
      · rw [if_pos hd, if_pos (hbt ▸ hd)]
        show some (Bond.core (m.bondWithIdD bid)) = some (Bond.core (m'.bondWithIdD bid))
        rw [hb]
      · rw [if_neg hd, if_neg (fun hq => hd (by rw [hbt]; exact hq))]
        exact ih

theorem firstDoublyBondedNeighbour_congr {m m' : Molecule}
    (hb : m.bonds.map Bond.core = m'.bonds.map Bond.core)
    {a a' : Atom} (ha : Atom.core a = Atom.core a') :
    Option.map (fun p => (p.1, Bond.core p.2)) (a.firstDoublyBondedNeighbour m) =
      Option.map (fun p => (p.1, Bond.core p.2)) (a'.firstDoublyBondedNeighbour m') := by
  have hdb : a.doubleBondCount = a'.doubleBondCount := congrArg AtomCore.doubleBondCount ha
  have hbondsa : a.bonds = a'.bonds := congrArg AtomCore.bonds ha
  have hiid : a.iId = a'.iId := congrArg AtomCore.iId ha
  have hmapeq : (a.bonds.map m.bondWithIdD).map Bond.core =
      (a.bonds.map m'.bondWithIdD).map Bond.core := by
    rw [List.map_map, List.map_map]
    exact List.map_congr_left (fun bid _ => bondWithIdD_core_congr hb bid)
  have hfind := find?_key_congr Bond.core Bond.bType
    (fun c c' hc => congrArg BondCore.bType hc)
    (a.bonds.map m.bondWithIdD) (a.bonds.map m'.bondWithIdD) hmapeq BondType.double
  unfold Atom.firstDoublyBondedNeighbour
  rw [← hdb, ← hbondsa, ← hiid]
  by_cases h0 : a.doubleBondCount = 0
  · rw [if_pos h0, if_pos h0]
  · rw [if_neg h0, if_neg h0]
    rcases hs1 : (a.bonds.map m.bondWithIdD).find? (fun b => b.bType == BondType.double)
      with _ | b
    · rw [hs1] at hfind
      rcases hs2 : (a.bonds.map m'.bondWithIdD).find? (fun b => b.bType == BondType.double)
        with _ | b'
      · rw [hs1, hs2]
      · rw [hs2] at hfind
        simp at hfind
    · rw [hs1] at hfind
      rcases hs2 : (a.bonds.map m'.bondWithIdD).find? (fun b => b.bType == BondType.double)
        with _ | b'
      · rw [hs2] at hfind
        simp at hfind
      · rw [hs2] at hfind
        simp only [Option.map, Option.some.injEq] at hfind
        rw [hs1, hs2]
        show some (b.otherAtomIid a.iId, Bond.core b) = some (b'.otherAtomIid a.iId, Bond.core b')
        rw [otherAtomIid_congr hfind a.iId, hfind]

theorem piElectronCount_congr {m m' : Molecule}
    (hb : m.bonds.map Bond.core = m'.bonds.map Bond.core)
    (hat : m.atoms.map Atom.core = m'.atoms.map Atom.core)
    {a a' : Atom} (ha : Atom.core a = Atom.core a') :
    a.piElectronCount m = a'.piElectronCount m' := by
  have hAt : a.atNum = a'.atNum := congrArg AtomCore.atNum ha
  have hW : a.wtSum = a'.wtSum := by
    have h1 : a.doubleBondCount = a'.doubleBondCount := congrArg AtomCore.doubleBondCount ha
    have h2 : a.singleBondCount = a'.singleBondCount := congrArg AtomCore.singleBondCount ha
    have h3 : a.charge = a'.charge := congrArg AtomCore.charge ha
    unfold Atom.wtSum
    rw [h1, h2, h3]
  have hBonds : a.bonds = a'.bonds := congrArg AtomCore.bonds ha
  have hcntP : ∀ l : List Nat,
      (l.map m.bondWithIdD).countP (fun b => b.bType == BondType.double && !b.isCyclic) =
      (l.map m'.bondWithIdD).countP (fun b => b.bType == BondType.double && !b.isCyclic) := by
    intro l
    refine countP_key_congr Bond.core _ ?_ _ _ ?_
    · intro c c' hc
      rw [show c.bType = c'.bType from congrArg BondCore.bType hc, isCyclic_congr hc]
    · rw [List.map_map, List.map_map]
      exact List.map_congr_left (fun bid _ => bondWithIdD_core_congr hb bid)
  simp only [Atom.piElectronCount]
  rw [← hAt, ← hW, ← hBonds]
  by_cases h6 : a.atNum = 6
  · rw [if_pos h6, if_pos h6]
    by_cases k19 : a.wtSum = 19
    · rw [if_pos k19, if_pos k19]
    · rw [if_neg k19, if_neg k19]
      by_cases k20 : a.wtSum = 20
      · rw [if_pos k20, if_pos k20]
      · rw [if_neg k20, if_neg k20]
        by_cases k110 : a.wtSum = 110
        · rw [if_pos k110, if_pos k110]
        · rw [if_neg k110, if_neg k110]
          by_cases k120 : a.wtSum = 120
          · rw [if_pos k120, if_pos k120]
            have hsc := scanDoubleBond_congr hb a.bonds
            rcases hs1 : scanDoubleBond m a.bonds with _ | b
            · rw [hs1] at hsc
              rcases hs2 : scanDoubleBond m' a.bonds with _ | b'
              · rfl
              · rw [hs2] at hsc
                simp at hsc
            · rw [hs1] at hsc
              rcases hs2 : scanDoubleBond m' a.bonds with _ | b'
              · rw [hs2] at hsc
                simp at hsc
              · rw [hs2] at hsc
                have hsc2 : Bond.core b = Bond.core b' := Option.some.inj hsc
                change (if b.isCyclic = true then ((1 : Int), true) else ((0 : Int), true)) =
                  (if b'.isCyclic = true then ((1 : Int), true) else ((0 : Int), true))
                rw [isCyclic_congr hsc2]
          · rw [if_neg k120, if_neg k120]
  · rw [if_neg h6, if_neg h6]
    by_cases h7 : a.atNum = 7
    · rw [if_pos h7, if_pos h7]
    · rw [if_neg h7, if_neg h7]
      by_cases h8 : a.atNum = 8
      · rw [if_pos h8, if_pos h8]
      · rw [if_neg h8, if_neg h8]
        by_cases h16 : a.atNum = 16
        · rw [if_pos h16, if_pos h16]
          by_cases k20 : a.wtSum = 20
          · rw [if_pos k20, if_pos k20]
          · rw [if_neg k20, if_neg k20]
            by_cases k111 : a.wtSum = 111
            · rw [if_pos k111, if_pos k111]
            · rw [if_neg k111, if_neg k111]
              by_cases k120 : a.wtSum = 120
              · rw [if_pos k120, if_pos k120]
                have hfd := firstDoublyBondedNeighbour_congr hb ha
                rcases hs1 : a.firstDoublyBondedNeighbour m with _ | p
                · rw [hs1] at hfd
                  rcases hs2 : a'.firstDoublyBondedNeighbour m' with _ | p'
                  · rfl
                  · rw [hs2] at hfd
                    simp at hfd
                · rw [hs1] at hfd
                  rcases hs2 : a'.firstDoublyBondedNeighbour m' with _ | p'
                  · rw [hs2] at hfd
                    simp at hfd
                  · rw [hs2] at hfd
                    have hfd2 : (p.1, Bond.core p.2) = (p'.1, Bond.core p'.2) :=
                      Option.some.inj hfd
                    have hp1 : p.1 = p'.1 :=
                      congrArg (fun q : Nat × BondCore => q.1) hfd2
                    have hp2 : Bond.core p.2 = Bond.core p'.2 :=
                      congrArg (fun q : Nat × BondCore => q.2) hfd2
                    have hoa : Atom.core (m.atomWithIidD p.1) =
                        Atom.core (m'.atomWithIidD p'.1) := by
                      rw [hp1]
                      exact atomWithIidD_core_congr hat p'.1
                    have hoan : (m.atomWithIidD p.1).atNum = (m'.atomWithIidD p'.1).atNum :=
                      congrArg AtomCore.atNum hoa
                    change (if (m.atomWithIidD p.1).atNum = 8 ∧ ¬p.2.isCyclic = true
                        then ((2 : Int), true) else ((0 : Int), true)) =
                      (if (m'.atomWithIidD p'.1).atNum = 8 ∧ ¬p'.2.isCyclic = true
                        then ((2 : Int), true) else ((0 : Int), true))
                    rw [hoan, isCyclic_congr hp2]
              · rw [if_neg k120, if_neg k120]
                by_cases k220 : a.wtSum = 220
                · rw [if_pos k220, if_pos k220, hcntP a.bonds]
                · rw [if_neg k220, if_neg k220]
        · rw [if_neg h16, if_neg h16]

theorem sumPi_congr {m m' : Molecule}
    (hb : m.bonds.map Bond.core = m'.bonds.map Bond.core)
    (hat : m.atoms.map Atom.core = m'.atoms.map Atom.core) :
    ∀ (ids : List Nat) (acc : Int), sumPi m ids acc = sumPi m' ids acc := by
  intro ids
  induction ids with
  | nil =>
    intro acc
    rfl
  | cons x rest ih =>
    intro acc
    have hpi : (m.atomWithIidD x).piElectronCount m =
        (m'.atomWithIidD x).piElectronCount m' :=
      piElectronCount_congr hb hat (atomWithIidD_core_congr hat x)
    simp only [sumPi, hpi]
    split
    · exact ih _
    · rfl

theorem sp3Carbon_congr {m m' : Molecule}
    (hat : m.atoms.map Atom.core = m'.atoms.map Atom.core) (aiid : Nat) :
    sp3Carbon m aiid = sp3Carbon m' aiid := by
  have hc := atomWithIidD_core_congr hat aiid
  have h1 : (m.atomWithIidD aiid).atNum = (m'.atomWithIidD aiid).atNum :=
    congrArg AtomCore.atNum hc
  have h2 : (m.atomWithIidD aiid).unsaturation = (m'.atomWithIidD aiid).unsaturation :=
    congrArg AtomCore.unsaturation hc
  simp only [sp3Carbon]
  rw [h1, h2]

theorem sp3Carbon_funext {m m' : Molecule}
    (hat : m.atoms.map Atom.core = m'.atoms.map Atom.core) :
    sp3Carbon m = sp3Carbon m' :=
  funext (sp3Carbon_congr hat)

theorem ringPassB_congr {m m' : Molecule}
    (hat : m.atoms.map Atom.core = m'.atoms.map Atom.core)
    (hb : m.bonds.map Bond.core = m'.bonds.map Bond.core)
    (hr : m.rings.map Ring.core = m'.rings.map Ring.core) (rid : Nat) :
    ringPassB m rid = ringPassB m' rid := by
  have hrc : Ring.core (m.ringWithIdD rid) = Ring.core (m'.ringWithIdD rid) :=
    ringWithIdD_core_congr hr rid
  have hatoms : (m.ringWithIdD rid).atoms = (m'.ringWithIdD rid).atoms :=
    congrArg RingCore.atoms hrc
  have hpi : (m.ringWithIdD rid).piElectronCount m = (m'.ringWithIdD rid).piElectronCount m' := by
    unfold Ring.piElectronCount
    rw [hatoms]
    exact sumPi_congr hb hat _ 0
  simp only [ringPassB]
  rw [hpi, hatoms, sp3Carbon_funext hat]

theorem coreEq_refl (m : Molecule) : coreEq m m :=
  ⟨rfl, rfl, rfl⟩

theorem coreEq_trans {m1 m2 m3 : Molecule} (h : coreEq m1 m2) (h' : coreEq m2 m3) :
    coreEq m1 m3 :=
  ⟨h.1.trans h'.1, h.2.1.trans h'.2.1, h.2.2.trans h'.2.2⟩

theorem markAtomsAro_map_core (ids : List Nat) :
    ∀ m : Molecule, (markAtomsAro m ids).atoms.map Atom.core = m.atoms.map Atom.core := by
  induction ids with
  | nil =>
    intro m
    rfl
  | cons x rest ih =>
    intro m
    have hstep : markAtomsAro m (x :: rest) = markAtomsAro
        { m with atoms := updateFirst Atom.iId x (fun a => { a with isInAroRing := true }) m.atoms }
        rest := rfl
    rw [hstep, ih]
    exact map_updateFirst Atom.iId x (fun a => { a with isInAroRing := true }) Atom.core
      (fun a => rfl) m.atoms

theorem markBondsAro_map_core (ids : List Nat) :
    ∀ m : Molecule, (markBondsAro m ids).bonds.map Bond.core = m.bonds.map Bond.core := by
  induction ids with
  | nil =>
    intro m
    rfl
  | cons x rest ih =>
    intro m
    have hstep : markBondsAro m (x :: rest) = markBondsAro
        { m with bonds := updateFirst Bond.id x (fun b => { b with isAro := true }) m.bonds }
        rest := rfl
    rw [hstep, ih]
    exact map_updateFirst Bond.id x (fun b => { b with isAro := true }) Bond.core
      (fun b => rfl) m.bonds

theorem ringDA_coreEq (m : Molecule) (rid : Nat) :
    coreEq m (ringDetermineAromaticity m rid) := by
  simp only [ringDetermineAromaticity]
  split_ifs with h1 h2 h3 h4
  · exact coreEq_refl m
  · exact coreEq_refl m
  · exact coreEq_refl m
  · refine ⟨?_, ?_, ?_⟩
    · rw [markBondsAro_atoms, markAtomsAro_map_core]
    · rw [markBondsAro_map_core, markAtomsAro_bonds]
    · rw [markBondsAro_rings, markAtomsAro_rings]
      exact (map_updateFirst Ring.id rid
        (fun rr => { rr with isAro := true, isHetAro := true }) Ring.core
        (fun r => rfl) m.rings).symm
  · refine ⟨?_, ?_, ?_⟩
    · rw [markBondsAro_atoms, markAtomsAro_map_core]
    · rw [markBondsAro_map_core, markAtomsAro_bonds]
    · rw [markBondsAro_rings, markAtomsAro_rings]
      exact (map_updateFirst Ring.id rid
        (fun rr => { rr with isAro := true }) Ring.core
        (fun r => rfl) m.rings).symm

theorem foldl_ringDA_coreEq (l : List Nat) :
    ∀ m : Molecule, coreEq m (l.foldl ringDetermineAromaticity m) := by
  induction l with
  | nil =>
    intro m
    exact coreEq_refl m
  | cons x rest ih =>
    intro m
    exact coreEq_trans (ringDA_coreEq m x) (ih (ringDetermineAromaticity m x))

theorem ringWithIdD_markMarks (m : Molecule) (A B : List Nat) (x : Nat) :
    (markBondsAro (markAtomsAro m A) B).ringWithIdD x = m.ringWithIdD x := by
  unfold Molecule.ringWithIdD Molecule.ringWithId
  rw [markBondsAro_rings, markAtomsAro_rings]

theorem ringWithIdD_updateFirst (m : Molecule) (rid' rid : Nat) (f : Ring → Ring)
    (hf : ∀ r, Ring.id (f r) = Ring.id r) :
    Molecule.ringWithIdD { m with rings := updateFirst Ring.id rid' f m.rings } rid =
      if rid = rid' then ((m.ringWithId rid').map f).getD default else m.ringWithIdD rid := by
  unfold Molecule.ringWithIdD Molecule.ringWithId
  show ((updateFirst Ring.id rid' f m.rings).find? (fun r => r.id == rid)).getD default = _
  rw [find?_updateFirst Ring.id rid' rid f hf m.rings]
  by_cases h : rid = rid'
  · rw [if_pos h, if_pos h]
  · rw [if_neg h, if_neg h]

theorem ringDA_not_pass (mc : Molecule) (rid' : Nat) (hp : ringPassB mc rid' = false) :
    ringDetermineAromaticity mc rid' = mc := by
  simp only [ringPassB] at hp
  simp only [ringDetermineAromaticity]
  by_cases h1 : (!((mc.ringWithIdD rid').piElectronCount mc).2) = true
  · rw [if_pos h1]
  · rw [if_neg h1]
    have h1' : ((mc.ringWithIdD rid').piElectronCount mc).2 = true := by simpa using h1
    by_cases h2 : (((mc.ringWithIdD rid').piElectronCount mc).1 - 2).tmod 4 ≠ 0
    · rw [if_pos h2]
    · rw [if_neg h2]
      have h2' := not_not.mp h2
      by_cases h3 : ((mc.ringWithIdD rid').atoms.any (sp3Carbon mc)) = true
      · rw [if_pos h3]
      · exfalso
        rw [h1', beq_iff_eq.mpr h2'] at hp
        simp only [Bool.true_and, Bool.not_eq_false'] at hp
        exact h3 hp

theorem ringDA_ringWithIdD_ne (mc : Molecule) (rid rid' : Nat) (h : rid ≠ rid') :
    (ringDetermineAromaticity mc rid').ringWithIdD rid = mc.ringWithIdD rid := by
  simp only [ringDetermineAromaticity]
  split_ifs with h1 h2 h3 h4
  · rfl
  · rfl
  · rfl
  · rw [ringWithIdD_markMarks,
      ringWithIdD_updateFirst mc rid' rid
        (fun rr => { rr with isAro := true, isHetAro := true }) (fun r => rfl),
      if_neg h]
  · rw [ringWithIdD_markMarks,
      ringWithIdD_updateFirst mc rid' rid
        (fun rr => { rr with isAro := true }) (fun r => rfl),
      if_neg h]

theorem ringDA_pass_self (mc : Molecule) (rid' : Nat) (hp : ringPassB mc rid' = true) :
    ((ringDetermineAromaticity mc rid').ringWithIdD rid').isAro = true := by
  simp only [ringPassB] at hp
  simp only [Bool.and_eq_true] at hp
  obtain ⟨⟨hp2, he⟩, hna⟩ := hp
  have h2' : (((mc.ringWithIdD rid').piElectronCount mc).1 - 2).tmod 4 = 0 := beq_iff_eq.mp he
  have h3' : (mc.ringWithIdD rid').atoms.any (sp3Carbon mc) = false := by simpa using hna
  have hc1 : ¬((!((mc.ringWithIdD rid').piElectronCount mc).2) = true) := by simp [hp2]
  have hc2 : ¬((((mc.ringWithIdD rid').piElectronCount mc).1 - 2).tmod 4 ≠ 0) :=
    not_not_intro h2'
  have hc3 : ¬(((mc.ringWithIdD rid').atoms.any (sp3Carbon mc)) = true) := by simp [h3']
  simp only [ringDetermineAromaticity]
  rw [if_neg hc1, if_neg hc2, if_neg hc3]
  set het : Bool :=
    (mc.ringWithIdD rid').atoms.any (fun aiid => decide ((mc.atomWithIidD aiid).atNum ≠ 6))
    with hhet
  rw [ringWithIdD_markMarks,
    ringWithIdD_updateFirst mc rid' rid'
      (fun rr => { rr with isAro := true, isHetAro := if het = true then true else rr.isHetAro })
      (fun r => rfl),
    if_pos rfl]
  rcases hfind : mc.ringWithId rid' with _ | r0
  · exfalso
    have hfd : mc.ringWithIdD rid' = default := by
      unfold Molecule.ringWithIdD
      rw [hfind]
      rfl
    rw [hfd] at h2'
    have hdp : Ring.piElectronCount (default : Ring) mc = (0, true) := rfl
    rw [hdp] at h2'
    exact absurd h2' (by decide)
  · rfl

theorem ringDA_flag (m0 mc : Molecule) (hc : coreEq m0 mc) (rid rid' : Nat) :
    ((ringDetermineAromaticity mc rid').ringWithIdD rid).isAro =
      ((if rid = rid' then ringPassB m0 rid' else false) ||
        (mc.ringWithIdD rid).isAro) := by
  obtain ⟨hat, hb, hr⟩ := hc
  have hpb : ringPassB m0 rid' = ringPassB mc rid' := ringPassB_congr hat hb hr rid'
  rw [hpb]
  by_cases hxy : rid = rid'
  · subst hxy
    rw [if_pos rfl]
    cases hp : ringPassB mc rid with
    | false =>
      rw [ringDA_not_pass mc rid hp]
      simp
    | true =>
      rw [ringDA_pass_self mc rid hp]
      simp
  · rw [if_neg hxy, ringDA_ringWithIdD_ne mc rid rid' hxy]
    simp

theorem foldl_ringDA_flag (m0 : Molecule) (l : List Nat) :
    ∀ mc : Molecule, coreEq m0 mc → ∀ rid : Nat,
      ((l.foldl ringDetermineAromaticity mc).ringWithIdD rid).isAro =
        ((decide (rid ∈ l) && ringPassB m0 rid) || (mc.ringWithIdD rid).isAro) := by
  induction l with
  | nil =>
    intro mc hc rid
    simp
  | cons x rest ih =>
    intro mc hc rid
    have hc' : coreEq m0 (ringDetermineAromaticity mc x) :=
      coreEq_trans hc (ringDA_coreEq mc x)
    have hstep : (x :: rest).foldl ringDetermineAromaticity mc =
        rest.foldl ringDetermineAromaticity (ringDetermineAromaticity mc x) := rfl
    rw [hstep, ih (ringDetermineAromaticity mc x) hc' rid, ringDA_flag m0 mc hc rid x]
    by_cases hx : rid = x
    · subst hx
      rw [if_pos rfl]
      cases hp : ringPassB m0 rid <;> cases ho : (mc.ringWithIdD rid).isAro <;>
        simp [List.mem_cons]
    · rw [if_neg hx]
      simp [List.mem_cons, hx]

theorem ringSystemErr_eq_not_rsPassB (m : Molecule) (rs : RingSystem) :
    ringSystemErr m rs = !rsPassB m rs := by
  simp only [ringSystemErr, rsPassB, bne]
  cases hp : (rs.piElectronCount m).2 <;>
    cases he : ((rs.piElectronCount m).1 - 2).tmod 4 == 0 <;>
      cases ha : rs.atomBitSet.any (sp3Carbon m) <;> simp

theorem atomWithIid_flagSet (m : Molecule) (x aiid : Nat) :
    Molecule.atomWithIid
      { m with atoms := updateFirst Atom.iId x (fun a => { a with isInAroRing := true }) m.atoms }
      aiid =
      if aiid = x then (m.atomWithIid x).map (fun a => { a with isInAroRing := true })
      else m.atomWithIid aiid := by
  unfold Molecule.atomWithIid
  show (updateFirst Atom.iId x (fun a => { a with isInAroRing := true }) m.atoms).find?
    (fun a => a.iId == aiid) = _
  exact find?_updateFirst Atom.iId x aiid (fun a => { a with isInAroRing := true })
    (fun a => rfl) m.atoms

theorem atomWithIid_markAtomsAro_not_mem (ids : List Nat) (aiid : Nat) (h : aiid ∉ ids) :
    ∀ m : Molecule, (markAtomsAro m ids).atomWithIid aiid = m.atomWithIid aiid := by
  induction ids with
  | nil =>
    intro m
    rfl
  | cons x rest ih =>
    intro m
    have hx : aiid ≠ x := by
      intro he
      exact h (he ▸ List.mem_cons_self x rest)
    have hrest : aiid ∉ rest := fun hm => h (List.mem_cons_of_mem x hm)
    have hstep : markAtomsAro m (x :: rest) = markAtomsAro
        { m with atoms := updateFirst Atom.iId x (fun a => { a with isInAroRing := true }) m.atoms }
        rest := rfl
    rw [hstep, ih hrest, atomWithIid_flagSet m x aiid, if_neg hx]

theorem markAtomsAro_sets (ids : List Nat) (aiid : Nat) :
    ∀ m : Molecule, aiid ∈ ids → (m.atomWithIid aiid).isSome →
      ((markAtomsAro m ids).atomWithIidD aiid).isInAroRing = true := by
  induction ids with
  | nil =>
    intro m hm hsome
    exact absurd hm (List.not_mem_nil aiid)
  | cons x rest ih =>
    intro m hm hsome
    have hstep : markAtomsAro m (x :: rest) = markAtomsAro
        { m with atoms := updateFirst Atom.iId x (fun a => { a with isInAroRing := true }) m.atoms }
        rest := rfl
    rw [hstep]
    by_cases hmem : aiid ∈ rest
    · refine ih _ hmem ?_
      rw [atomWithIid_flagSet m x aiid]
      by_cases hax : aiid = x
      · rw [if_pos hax]
        subst hax
        rcases Option.isSome_iff_exists.mp hsome with ⟨a, ha⟩
        rw [ha]
        rfl
      · rw [if_neg hax]
        exact hsome
    · have hax : aiid = x := by
        rcases List.mem_cons.mp hm with h | h
        · exact h
        · exact absurd h hmem
      subst hax
      unfold Molecule.atomWithIidD
      rw [atomWithIid_markAtomsAro_not_mem rest aiid hmem _, atomWithIid_flagSet m aiid aiid,
        if_pos rfl]
      rcases Option.isSome_iff_exists.mp hsome with ⟨a, ha⟩
      rw [ha]
      rfl

theorem bondWithId_flagSet (m : Molecule) (x bid : Nat) :
    Molecule.bondWithId
      { m with bonds := updateFirst Bond.id x (fun b => { b with isAro := true }) m.bonds }
      bid =
      if bid = x then (m.bondWithId x).map (fun b => { b with isAro := true })
      else m.bondWithId bid := by
  unfold Molecule.bondWithId
  show (updateFirst Bond.id x (fun b => { b with isAro := true }) m.bonds).find?
    (fun b => b.id == bid) = _
  exact find?_updateFirst Bond.id x bid (fun b => { b with isAro := true })
    (fun b => rfl) m.bonds

theorem bondWithId_markBondsAro_not_mem (ids : List Nat) (bid : Nat) (h : bid ∉ ids) :
    ∀ m : Molecule, (markBondsAro m ids).bondWithId bid = m.bondWithId bid := by
  induction ids with
  | nil =>
    intro m
    rfl
  | cons x rest ih =>
    intro m
    have hx : bid ≠ x := by
      intro he
      exact h (he ▸ List.mem_cons_self x rest)
    have hrest : bid ∉ rest := fun hm => h (List.mem_cons_of_mem x hm)
    have hstep : markBondsAro m (x :: rest) = markBondsAro
        { m with bonds := updateFirst Bond.id x (fun b => { b with isAro := true }) m.bonds }
        rest := rfl
    rw [hstep, ih hrest, bondWithId_flagSet m x bid, if_neg hx]

theorem markBondsAro_sets (ids : List Nat) (bid : Nat) :
    ∀ m : Molecule, bid ∈ ids → (m.bondWithId bid).isSome →
      ((markBondsAro m ids).bondWithIdD bid).isAro = true := by
  induction ids with
  | nil =>
    intro m hm hsome
    exact absurd hm (List.not_mem_nil bid)
  | cons x rest ih =>
    intro m hm hsome
    have hstep : markBondsAro m (x :: rest) = markBondsAro
        { m with bonds := updateFirst Bond.id x (fun b => { b with isAro := true }) m.bonds }
        rest := rfl
    rw [hstep]
    by_cases hmem : bid ∈ rest
    · refine ih _ hmem ?_
      rw [bondWithId_flagSet m x bid]
      by_cases hbx : bid = x
      · rw [if_pos hbx]
        subst hbx
        rcases Option.isSome_iff_exists.mp hsome with ⟨b, hb⟩
        rw [hb]
        rfl
      · rw [if_neg hbx]
        exact hsome
    · have hbx : bid = x := by
        rcases List.mem_cons.mp hm with h | h
        · exact h
        · exact absurd h hmem
      subst hbx
      unfold Molecule.bondWithIdD
      rw [bondWithId_markBondsAro_not_mem rest bid hmem _, bondWithId_flagSet m bid bid,
        if_pos rfl]
      rcases Option.isSome_iff_exists.mp hsome with ⟨b, hb⟩
      rw [hb]
      rfl

theorem ringSystemWithIdD_markMarks (m : Molecule) (A B : List Nat) (x : Nat) :
    (markBondsAro (markAtomsAro m A) B).ringSystemWithIdD x = m.ringSystemWithIdD x := by
  unfold Molecule.ringSystemWithIdD Molecule.ringSystemWithId
  rw [markBondsAro_ringSystems, markAtomsAro_ringSystems]

theorem ringSystemWithIdD_updateFirst (m : Molecule) (rsid x : Nat)
    (f : RingSystem → RingSystem) (hf : ∀ s, RingSystem.id (f s) = RingSystem.id s) :
    Molecule.ringSystemWithIdD
      { m with ringSystems := updateFirst RingSystem.id rsid f m.ringSystems } x =
      if x = rsid then ((m.ringSystemWithId rsid).map f).getD default
      else m.ringSystemWithIdD x := by
  unfold Molecule.ringSystemWithIdD Molecule.ringSystemWithId
  show ((updateFirst RingSystem.id rsid f m.ringSystems).find?
    (fun rs => rs.id == x)).getD default = _
  rw [find?_updateFirst RingSystem.id rsid x f hf m.ringSystems]
  by_cases h : x = rsid
  · rw [if_pos h, if_pos h]
  · rw [if_neg h, if_neg h]

theorem atomWithIidD_markBondsAro (m : Molecule) (ids : List Nat) (x : Nat) :
    (markBondsAro m ids).atomWithIidD x = m.atomWithIidD x := by
  unfold Molecule.atomWithIidD Molecule.atomWithIid
  rw [markBondsAro_atoms]

theorem bondWithId_markAtomsAro (m : Molecule) (ids : List Nat) (x : Nat) :
    (markAtomsAro m ids).bondWithId x = m.bondWithId x := by
  unfold Molecule.bondWithId
  rw [markAtomsAro_bonds]

/-- C1: `RingSystem.determineAromaticity` on a molecule containing the
ring system: when the system's summed pi-electron count is
aromaticity-compatible, satisfies Hueckel's rule as implemented and no
member atom is an sp3 carbon (`rsPassB`), the pass sets `isAro` on the
system, `isInAroRing` on every member atom and `isAro` on every member
bond, and leaves every member ring's `isAro` flag unset; otherwise the
system stays non-aromatic and the per-ring determination runs on each
constituent ring, marking a member ring aromatic exactly when it passes
the per-ring gates (`ringPassB`). -/
theorem rsDetermineAromaticity_spec (m : Molecule) (rsid : Nat) (rs : RingSystem)
    (hrs : m.ringSystemWithId rsid = some rs)
    (hatoms : ∀ aiid ∈ rs.atomBitSet, (m.atomWithIid aiid).isSome)
    (hbonds : ∀ bid ∈ rs.bondBitSet, (m.bondWithId bid).isSome)
    (hrings0 : ∀ rid ∈ rs.rings, (m.ringWithIdD rid).isAro = false)
    (hrs0 : rs.isAro = false) :
    (rsPassB m rs = true →
      ((rsDetermineAromaticity m rsid).ringSystemWithIdD rsid).isAro = true ∧
      (∀ aiid ∈ rs.atomBitSet,
        ((rsDetermineAromaticity m rsid).atomWithIidD aiid).isInAroRing = true) ∧
      (∀ bid ∈ rs.bondBitSet,
        ((rsDetermineAromaticity m rsid).bondWithIdD bid).isAro = true) ∧
      (∀ rid ∈ rs.rings,
        ((rsDetermineAromaticity m rsid).ringWithIdD rid).isAro = false)) ∧
    (rsPassB m rs = false →
      ((rsDetermineAromaticity m rsid).ringSystemWithIdD rsid).isAro = false ∧
      (∀ rid ∈ rs.rings,
        ((rsDetermineAromaticity m rsid).ringWithIdD rid).isAro = ringPassB m rid)) := by
  have hD : m.ringSystemWithIdD rsid = rs := by
    unfold Molecule.ringSystemWithIdD
    rw [hrs]
    rfl
  constructor
  · intro hpass
    have herr : ringSystemErr m rs = false := by
      rw [ringSystemErr_eq_not_rsPassB, hpass]
      rfl
    have hres : rsDetermineAromaticity m rsid =
        markBondsAro
          (markAtomsAro
            { m with ringSystems := updateFirst RingSystem.id rsid (fun s => { s with isAro := true }) m.ringSystems }
            rs.atomBitSet)
          rs.bondBitSet := by
      simp only [rsDetermineAromaticity]
      rw [hD, if_neg (by simp [herr])]
    refine ⟨?_, ?_, ?_, ?_⟩
    · rw [hres, ringSystemWithIdD_markMarks,
        ringSystemWithIdD_updateFirst m rsid rsid (fun s => { s with isAro := true })
          (fun s => rfl),
        if_pos rfl, hrs]
      rfl
    · intro aiid hmem
      rw [hres, atomWithIidD_markBondsAro]
      exact markAtomsAro_sets rs.atomBitSet aiid _ hmem (hatoms aiid hmem)
    · intro bid hmem
      rw [hres]
      refine markBondsAro_sets rs.bondBitSet bid _ hmem ?_
      rw [bondWithId_markAtomsAro]
      exact hbonds bid hmem
    · intro rid hmem
      rw [hres, ringWithIdD_markMarks]
      exact hrings0 rid hmem
  · intro hfail
    have herr : ringSystemErr m rs = true := by
      rw [ringSystemErr_eq_not_rsPassB, hfail]
      rfl
    have hres : rsDetermineAromaticity m rsid = rs.rings.foldl ringDetermineAromaticity m := by
      simp only [rsDetermineAromaticity]
      rw [hD, if_pos herr]
    constructor
    · have hsys : (rs.rings.foldl ringDetermineAromaticity m).ringSystemWithIdD rsid =
          m.ringSystemWithIdD rsid := by
        unfold Molecule.ringSystemWithIdD Molecule.ringSystemWithId
        rw [foldl_ringDA_ringSystems]
      rw [hres, hsys, hD, hrs0]
    · intro rid hmem
      rw [hres, foldl_ringDA_flag m rs.rings m (coreEq_refl m) rid, hrings0 rid hmem]
      simp [hmem]

/-- C1 witness: the theorem applied to benzene and its single ring
system, which passes all three gates. -/
theorem rsDetermineAromaticity_spec_witness :
    benzene.ringSystemWithId 1 = some benzeneSystem ∧
    rsPassB benzene benzeneSystem = true ∧
    ((rsPassB benzene benzeneSystem = true →
      ((rsDetermineAromaticity benzene 1).ringSystemWithIdD 1).isAro = true ∧
      (∀ aiid ∈ benzeneSystem.atomBitSet,
        ((rsDetermineAromaticity benzene 1).atomWithIidD aiid).isInAroRing = true) ∧
      (∀ bid ∈ benzeneSystem.bondBitSet,
        ((rsDetermineAromaticity benzene 1).bondWithIdD bid).isAro = true) ∧
      (∀ rid ∈ benzeneSystem.rings,
        ((rsDetermineAromaticity benzene 1).ringWithIdD rid).isAro = false)) ∧
    (rsPassB benzene benzeneSystem = false →
      ((rsDetermineAromaticity benzene 1).ringSystemWithIdD 1).isAro = false ∧
      (∀ rid ∈ benzeneSystem.rings,
        ((rsDetermineAromaticity benzene 1).ringWithIdD rid).isAro =
          ringPassB benzene rid))) :=
  ⟨by decide, by decide,
    rsDetermineAromaticity_spec benzene 1 benzeneSystem (by decide) (by decide) (by decide)
      (by decide) (by decide)⟩

end RxnWeaver
